import Mathlib

/-!
Verification development for the gofield struct-accessor library
(package gofield: access.go, the accompanying option/policy file, and an
earlier revision of the accessor kept alongside them).

The shallow embedding models:
  * Go struct types as a small inductive `RType` (ints, pointers, structs
    with named members carrying byte offsets);
  * the shape analyzer `traversalFields` (with its `IterPolicy` switch,
    the shared mutable `depth` counter and the per-level queue of struct
    fields), entered through `newStructType` and the caching `analyze`;
  * raw memory as a list of typed cells, with `derefPtrAndInit` chasing
    and autovivifying nil pointer chains exactly as the source does;
  * the instance accessor `Struct` with its `fieldValues` lazy cache,
    `FieldType.init`, `FieldValue` and `Range`.

`traversalFields` in Go recurses while mutating `s.depth`; here the same
recursion is written with an explicit fuel argument.  Every call of the Go
function increments `depth` by at least one before recursing and the
function returns unchanged once `maxFieldDeep <= depth`, so with initial
fuel `maxDeep` the fuel can only run out on states the depth guard already
sends back unchanged; `traversalFieldsF_fuel` below certifies this by
showing the result does not depend on the fuel once
`maxDeep <= fuel + depth`.
-/

namespace Gofield

/-- Go types as seen by the analyzer: a non-struct leaf, a pointer, or a
struct whose members carry a declared name, a byte offset and a type. -/
inductive RType : Type where
  | rint : RType
  | rptr : RType → RType
  | rstruct : List (String × Nat × RType) → RType

/-- Strip leading pointer indirections, counting them: the loop
`for elemTyp.Kind() == reflect.Ptr { elemTyp = elemTyp.Elem(); ptrNum++ }`
in `traversalFields` (and the same loop in the older `parseFields`). -/
def stripPtr : RType → Nat × RType
  | .rptr t => let r := stripPtr t; (r.1 + 1, r.2)
  | t => (0, t)

/-- Kind test `elemTyp.Kind() == reflect.Struct`. -/
def RType.isStruct : RType → Bool
  | .rstruct _ => true
  | _ => false

/-- The eight iteration policies of the option file. -/
inductive IterPolicy : Type where
  | take
  | hide
  | skipOffspring
  | skip
  | takeAndStop
  | hideAndStop
  | skipOffspringAndStop
  | skipAndStop
deriving DecidableEq

/-- Go struct `FieldType` of access.go: id, declared member name, byte offset
(`StructField.Offset`), selector (full path), nesting depth, pointer
count, dereferenced element type, and the parent link (`nil` only for the
tree-root sentinel).  The `children` slice is not carried: it holds
exactly the fields whose stored parent is this field, so it is
recoverable from the flat list and no property below mentions it. -/
inductive FieldType : Type where
  | mk : (id : Int) → (name : String) → (offset : Nat) → (selector : String) →
      (deep : Nat) → (ptrNum : Nat) → (elemTyp : RType) →
      (parent : Option FieldType) → FieldType

def FieldType.id : FieldType → Int
  | .mk i _ _ _ _ _ _ _ => i

def FieldType.name : FieldType → String
  | .mk _ n _ _ _ _ _ _ => n

def FieldType.offset : FieldType → Nat
  | .mk _ _ o _ _ _ _ _ => o

def FieldType.selector : FieldType → String
  | .mk _ _ _ s _ _ _ _ => s

def FieldType.deep : FieldType → Nat
  | .mk _ _ _ _ d _ _ _ => d

def FieldType.ptrNum : FieldType → Nat
  | .mk _ _ _ _ _ p _ _ => p

def FieldType.elemTyp : FieldType → RType
  | .mk _ _ _ _ _ _ t _ => t

def FieldType.parent : FieldType → Option FieldType
  | .mk _ _ _ _ _ _ _ p => p

/-- Constant `rootID`: the id of the tree-root sentinel. -/
def rootID : Int := -1

/-- Function `joinFieldName` of access.go: an unconditional dot join (the older
revision instead returns `name` alone when the parent path is empty). -/
def joinFieldName (parentPath name : String) : String :=
  parentPath ++ "." ++ name

/-- The mutable state of `traversalFields`: the flat `s.fields` slice and
the shared `s.depth` counter on the `StructType` being built. -/
structure TravState : Type where
  fields : List FieldType
  depth : Nat

/-- One execution of the member loop of `traversalFields` (label `L`):
builds each member's `FieldType` with id `len(s.fields)`, applies the
iterator switch — whose explicit cases are SkipOffspring,
SkipOffspringAndStop, Skip and SkipAndStop, everything else (Take,
TakeAndStop, but also Hide and HideAndStop) falling through the `default`
into the Take branch — appends taken fields, and returns the final state
together with the queued struct fields (`structFields`). -/
def processLevel (iterator : Option (FieldType → IterPolicy)) (parent : FieldType)
    (depth : Nat) : List (String × Nat × RType) → TravState → TravState × List FieldType
  | [], st => (st, [])
  | (nm, off, ty) :: rest, st =>
    let pe := stripPtr ty
    let field : FieldType :=
      .mk (st.fields.length : Int) nm off (joinFieldName parent.selector nm)
        depth pe.1 pe.2 (some parent)
    match iterator with
    | none =>
      let st' : TravState := { st with fields := st.fields ++ [field] }
      let r := processLevel iterator parent depth rest st'
      (r.1, (if pe.2.isStruct then [field] else []) ++ r.2)
    | some it =>
      match it field with
      | .skipOffspring =>
        let st' : TravState := { st with fields := st.fields ++ [field] }
        processLevel iterator parent depth rest st'
      | .skipOffspringAndStop =>
        ({ st with fields := st.fields ++ [field] }, [])
      | .skip => processLevel iterator parent depth rest st
      | .skipAndStop => (st, [])
      | p =>
        let st' : TravState := { st with fields := st.fields ++ [field] }
        let q0 := if pe.2.isStruct then [field] else []
        if p = .takeAndStop then (st', q0)
        else
          let r := processLevel iterator parent depth rest st'
          (r.1, q0 ++ r.2)

/-- Method `traversalFields` with explicit fuel (see the header comment): check
the depth guard, increment the shared depth, run the member loop at the
new depth, then recurse into each queued struct field in order. -/
def traversalFieldsF (maxFieldDeep : Nat) (iterator : Option (FieldType → IterPolicy)) :
    Nat → TravState → FieldType → TravState
  | 0, st, _ => st
  | fuel + 1, st, parent =>
    if maxFieldDeep ≤ st.depth then st
    else
      let st1 : TravState := { st with depth := st.depth + 1 }
      match parent.elemTyp with
      | .rstruct members =>
        let r := processLevel iterator parent st1.depth members st1
        r.2.foldl (fun acc f => traversalFieldsF maxFieldDeep iterator fuel acc f) r.1
      | _ => st1

/-- Go struct `StructType`: runtime type id, flat field list, depth reached. -/
structure StructType : Type where
  tid : Int
  fields : List FieldType
  depth : Nat

/-- Function `newStructType`: build the tree-root sentinel (id `rootID`, empty
selector, nil parent) and run the traversal from depth 0. -/
def newStructType (maxDeep : Nat) (iterator : Option (FieldType → IterPolicy))
    (tid : Int) (structTyp : RType) : StructType :=
  let tree : FieldType := .mk rootID "" 0 "" 0 0 structTyp none
  let st := traversalFieldsF maxDeep iterator maxDeep ⟨[], 0⟩ tree
  { tid := tid, fields := st.fields, depth := st.depth }

/-- The accessor factory: the `dict` shape cache plus its options. -/
structure Accessor : Type where
  dict : List (Int × StructType)
  maxDeep : Nat
  iterator : Option (FieldType → IterPolicy)

/-- Method `Accessor.load`: look the type id up in the cache. -/
def Accessor.load (a : Accessor) (tid : Int) : Option StructType :=
  (a.dict.find? (fun e => e.1 == tid)).map (fun e => e.2)

/-- Method `Accessor.store`: insert a shape into the cache. -/
def Accessor.store (a : Accessor) (s : StructType) : Accessor :=
  { a with dict := (s.tid, s) :: a.dict }

/-- Method `Accessor.analyze`: return the cached shape or build and cache it. -/
def Accessor.analyze (a : Accessor) (tid : Int) (structTyp : RType) :
    StructType × Accessor :=
  match a.load tid with
  | some s => (s, a)
  | none =>
    let s := newStructType a.maxDeep a.iterator tid structTyp
    (s, a.store s)

/-- A bind-time argument: its Go type, runtime type id, and the address
the pointer carries. -/
structure ArgVal : Type where
  typ : RType
  tid : Int
  addr : Nat

/-- The two error values of access.go: `errIllegalType`
("type is not struct pointer") and `errTypeMismatch` ("type mismatch"). -/
inductive GoErr : Type where
  | illegalType
  | typeMismatch
deriving DecidableEq

/-- Modelled from the spec: `parseStructInfoWithCheck` is declared in a
repository file not present here; per the spec (and the identical inline
check in the older revision's `Prepare`) it fails with the IllegalType
error unless the argument is a pointer whose element is a struct, and
otherwise yields the runtime type id and the instance address. -/
def parseStructInfoWithCheck (v : ArgVal) : Except GoErr (Int × Nat) :=
  match v.typ with
  | .rptr (.rstruct _) => .ok (v.tid, v.addr)
  | _ => .error .illegalType

/-- Modelled from the spec: `parseStructInfo`, the unchecked variant,
yields the runtime type id and the instance address. -/
def parseStructInfo (v : ArgVal) : Int × Nat :=
  (v.tid, v.addr)

/-- Method `Accessor.Analyze`: check the argument, then analyze (with caching)
its fully dereferenced struct type. -/
def Accessor.Analyze (a : Accessor) (v : ArgVal) :
    Except GoErr (StructType × Accessor) :=
  match parseStructInfoWithCheck v with
  | .error e => .error e
  | .ok ti => .ok (a.analyze ti.1 (stripPtr v.typ).2)

/-- A memory cell: a pointer slot (possibly nil) or a non-pointer value
slot.  Addresses are positive; address `a` names the cell at list index
`a - 1`, so the Go convention that a zero `uintptr`/nil pointer is "not a
valid address" carries over literally. -/
inductive Cell : Type where
  | cptr : Option Nat → Cell
  | cval : Int → Cell
deriving DecidableEq

/-- Memory: a list of cells, extended by allocation. -/
abbrev Mem := List Cell

/-- Read the cell at address `a` (0 is never valid). -/
def Mem.load (m : Mem) (a : Nat) : Option Cell :=
  if a = 0 then none else m.get? (a - 1)

/-- Overwrite the cell at address `a` (out-of-range writes are no-ops;
they never occur on the paths proved below). -/
def Mem.store (m : Mem) (a : Nat) (c : Cell) : Mem :=
  if a = 0 then m else m.set (a - 1) c

/-- Allocate a fresh cell (`reflect.New`): append it and return its
address, which is always positive and fresh. -/
def Mem.alloc (m : Mem) (c : Cell) : Mem × Nat :=
  (m ++ [c], m.length + 1)

/-- Function `derefPtrAndInit` of access.go, viewed from the field's slot: `a` is
the address of the first of `numPtr` pointer slots.  At each level a nil
pointer gets a freshly allocated zero target (a nil pointer for the
levels before the last, the element's zero value at the last level —
`reflect.New(v.Type().Elem())`) stored through it before the chain moves
on; the returned address is the final pointer's target, i.e. the value
`valPtr.Pointer()` that `init` records as `elemPtr`.  The catch-all
branch covers loads the Go code cannot perform (a non-pointer cell or an
unmapped address would have made `IsNil`/`Elem` panic). -/
def derefPtrAndInit : Mem → Nat → Nat → Mem × Nat
  | m, a, 0 => (m, a)
  | m, a, numPtr + 1 =>
    match m.load a with
    | some (.cptr (some b)) => derefPtrAndInit m b numPtr
    | some (.cptr none) =>
      let zc : Cell := if numPtr = 0 then .cval 0 else .cptr none
      let al := m.alloc zc
      derefPtrAndInit (Mem.store al.1 a (.cptr (some al.2))) al.2 numPtr
    | _ => (m, a)

/-- The instance accessor `Struct`: its shape, the bound instance address
(`value.elemPtr`), and the lazy per-field cache `fieldValues`, where a
slot holds the resolved `elemPtr` and 0 means "not yet resolved" (the Go
code tests `v.elemPtr > 0`). -/
structure Struct : Type where
  styp : StructType
  value : Nat
  fieldValues : List Nat

/-- Function `newStruct`: wrap a shape and an instance address; the cache starts
all-zero with one slot per field. -/
def newStruct (typ : StructType) (elemPtr : Nat) : Struct :=
  { styp := typ, value := elemPtr,
    fieldValues := List.replicate typ.fields.length 0 }

/-- Method `StructType.Access`: bind an instance to this pre-resolved shape,
failing with the TypeMismatch error when the runtime type ids differ. -/
def StructType.Access (s : StructType) (v : ArgVal) : Except GoErr Struct :=
  let ti := parseStructInfo v
  if s.tid ≠ ti.1 then .error .typeMismatch
  else .ok (newStruct s ti.2)

/-- Method `StructType.checkID`: `id >= 0 && id < len(s.fields)`. -/
def StructType.checkID (s : StructType) (id : Int) : Bool :=
  decide (0 ≤ id) && decide (id < (s.fields.length : Int))

/-- The method `(s *StructType) FieldType(id)`: the descriptor for a
valid id, nil (`none`) otherwise. -/
def StructType.fieldType (s : StructType) (id : Int) : Option FieldType :=
  if s.checkID id then s.fields.get? id.toNat else none

/-- Method `FieldType.init`: lazy materialization.  The sentinel (nil parent)
resolves to the bound instance address; any other field first consults
the cache, otherwise resolves its parent, adds its own byte offset, runs
`derefPtrAndInit` when its pointer depth is positive, and records the
result in its cache slot.  Returns the resolved `elemPtr` together with
the updated accessor and memory. -/
def FieldType.init : FieldType → Struct → Mem → Nat × Struct × Mem
  | .mk _ _ _ _ _ _ _ none, s, m => (s.value, s, m)
  | .mk i _ off _ _ pn _ (some p), s, m =>
    let v := s.fieldValues.getD i.toNat 0
    if 0 < v then (v, s, m)
    else
      let pr := FieldType.init p s m
      let ptr := pr.1 + off
      let dr := if 0 < pn then derefPtrAndInit pr.2.2 ptr pn else (pr.2.2, ptr)
      (dr.2, { pr.2.1 with fieldValues := pr.2.1.fieldValues.set i.toNat dr.2 },
        dr.1)

/-- Method `Struct.FieldValue`: zero view for an invalid id, the cached view
when the slot is populated, otherwise materialize via `init`. -/
def Struct.FieldValue (s : Struct) (m : Mem) (id : Int) : Nat × Struct × Mem :=
  if s.styp.checkID id then
    let v := s.fieldValues.getD id.toNat 0
    if 0 < v then (v, s, m)
    else
      match s.styp.fields.get? id.toNat with
      | some f => f.init s m
      | none => (0, s, m)
  else (0, s, m)

/-- The loop of `Struct.Range` from slice index `idx` on, instrumented
with the trace of `(index, view)` pairs passed to the callback: use the
cached view when populated, otherwise materialize, and stop as soon as
the callback returns false. -/
def Struct.RangeFrom (fn : FieldType → Nat → Bool) :
    List FieldType → Nat → Struct → Mem → (Struct × Mem) × List (Nat × Nat)
  | [], _, s, m => ((s, m), [])
  | t :: rest, idx, s, m =>
    let v := s.fieldValues.getD idx 0
    if 0 < v then
      if fn t v then
        let r := Struct.RangeFrom fn rest (idx + 1) s m
        (r.1, (idx, v) :: r.2)
      else ((s, m), [(idx, v)])
    else
      let ir := t.init s m
      if fn t ir.1 then
        let r := Struct.RangeFrom fn rest (idx + 1) ir.2.1 ir.2.2
        (r.1, (idx, ir.1) :: r.2)
      else ((ir.2.1, ir.2.2), [(idx, ir.1)])

/-- Method `Struct.Range`: traverse all fields from index 0. -/
def Struct.Range (s : Struct) (m : Mem) (fn : FieldType → Nat → Bool) :
    (Struct × Mem) × List (Nat × Nat) :=
  Struct.RangeFrom fn s.styp.fields 0 s m

/-- Method `StructType.NumField`. -/
def StructType.NumField (s : StructType) : Nat :=
  s.fields.length

/-! ### Specification-side definitions

Everything below is written from the spec's words, to be compared with
the source-translated definitions above; nothing below is used by them. -/

/-- Test for "pointer to a composite record": exactly one pointer layer
whose element is a struct (the bind-time validity condition). -/
def isStructPtr : RType → Bool
  | .rptr (.rstruct _) => true
  | _ => false

mutual

/-- Order specification for the flat field list under the default (no
policy) analysis, mirroring the depth accounting of the analyzer: a
struct level contributes its members' selectors in declaration order,
followed by the blocks of its struct-element members, each block fully
expanded before the next begins.  Returns the final depth counter and
the selector list. -/
def specOrder (maxD : Nat) : Nat → Nat → String → RType → Nat × List String
  | 0, d, _, _ => (d, [])
  | fuel + 1, d, sel, t =>
    if maxD ≤ d then (d, [])
    else
      match t with
      | .rstruct ms =>
        let subs := ms.filterMap fun mem =>
          let pe := stripPtr mem.2.2
          if pe.2.isStruct then some (joinFieldName sel mem.1, pe.2) else none
        let r := specOrderList maxD fuel (d + 1) subs
        (r.1, ms.map (fun mem => joinFieldName sel mem.1) ++ r.2)
      | _ => (d + 1, [])

/-- Block expansion of the queued struct members, threading the depth
counter left to right; companion of `specOrder`. -/
def specOrderList (maxD : Nat) : Nat → Nat → List (String × RType) → Nat × List String
  | _, d, [] => (d, [])
  | fuel, d, me :: rest =>
    let r1 := specOrder maxD fuel d me.1 me.2
    let r2 := specOrderList maxD fuel r1.1 rest
    (r2.1, r1.2 ++ r2.2)

end

/-- The adjacency form of pre-order claimed for the flat list: a field's
expanded sub-field never appears after a later sibling of that field. -/
def preOrderAdjacent (s : StructType) : Prop :=
  ∀ i j k fi fj fk, s.fields.get? i = some fi → s.fields.get? j = some fj →
    s.fields.get? k = some fk → i < j → j < k →
    fj.parent.map FieldType.id = fi.parent.map FieldType.id →
    fk.parent.map FieldType.id = some fi.id → False

/-- Per-field shape invariant recorded by the traversal: the stored
parent has a strictly smaller id, the selector extends the parent's by
one dot-joined component, and a parent that is itself parentless is the
root sentinel (id -1, empty selector). -/
def FieldOK (f : FieldType) : Prop :=
  ∃ p, f.parent = some p ∧ p.id < f.id ∧
    f.selector = p.selector ++ "." ++ f.name ∧
    (p.parent = none → p.id = rootID ∧ p.selector = "")

/-- Invariant of the flat list under construction: position `j` holds
the field with id `j`, and every listed field satisfies `FieldOK`. -/
def FieldsInv (l : List FieldType) : Prop :=
  (∀ j f, l.get? j = some f → f.id = (j : Int)) ∧ (∀ f ∈ l, FieldOK f)

/-- Precondition on the parent a traversal level runs under: its id is
below the current list length (it is the sentinel or an already-listed
field), and if parentless it is the root sentinel. -/
def POk (l : List FieldType) (parent : FieldType) : Prop :=
  parent.id < (l.length : Int) ∧
  (parent.parent = none → parent.id = rootID ∧ parent.selector = "")

/-- Memory well-formedness: every non-nil pointer cell targets a
positive address. -/
def Mem.WF (m : Mem) : Bool :=
  m.all fun c =>
    match c with
    | .cptr (some b) => decide (1 ≤ b)
    | _ => true

/-- A well-typed pointer chain of `n` levels starting at slot `a`: each
level is a pointer cell, possibly nil (beyond a nil nothing is
required), and after `n` levels a value cell is reached. -/
def chainWFb (m : Mem) : Nat → Nat → Bool
  | a, 0 =>
    match m.load a with
    | some (.cval _) => true
    | _ => false
  | a, n + 1 =>
    match m.load a with
    | some (.cptr none) => true
    | some (.cptr (some b)) => chainWFb m b n
    | _ => false

/-- A fully materialized chain: `n` non-nil pointer hops from slot `a`
reach slot `r`, which holds a value cell. -/
def fullChainb (m : Mem) : Nat → Nat → Nat → Bool
  | a, r, 0 =>
    decide (a = r) &&
      match m.load a with
      | some (.cval _) => true
      | _ => false
  | a, r, n + 1 =>
    match m.load a with
    | some (.cptr (some b)) => fullChainb m b r n
    | _ => false

/-- Follow `n` pointer hops from slot `a` by reading memory only. -/
def followChain (m : Mem) : Nat → Nat → Option Nat
  | a, 0 => some a
  | a, n + 1 =>
    match m.load a with
    | some (.cptr (some b)) => followChain m b n
    | _ => none

/-- Ancestor-chain bound: every non-sentinel link on the parent chain
has a non-negative id below `n` (so its lazy-cache slot exists). -/
def ancOK (n : Nat) : FieldType → Bool
  | .mk _ _ _ _ _ _ _ none => true
  | .mk i _ _ _ _ _ _ (some p) =>
    decide (0 ≤ i) && decide (i.toNat < n) && ancOK n p

/-- Ancestor ids strictly decrease along the parent chain. -/
def ancIdLt : FieldType → Bool
  | .mk _ _ _ _ _ _ _ none => true
  | .mk i _ _ _ _ _ _ (some p) => decide (p.id < i) && ancIdLt p

/-- A throwaway field descriptor used only as a `getD` default. -/
def defaultFT : FieldType :=
  .mk rootID "" 0 "" 0 0 .rint none

/-! ### Concrete record types used as failing inputs and witnesses -/

/-- A flat two-field struct. -/
def tyAB : RType :=
  .rstruct [("A", 0, .rint), ("B", 8, .rint)]

/-- A flat three-field struct. -/
def tyABC : RType :=
  .rstruct [("A", 0, .rint), ("B", 8, .rint), ("C", 16, .rint)]

/-- A flat one-field struct. -/
def tyA : RType :=
  .rstruct [("A", 0, .rint)]

/-- Two sibling embedded structs under the root. -/
def tySib : RType :=
  .rstruct [("X", 0, .rstruct [("x1", 0, .rint)]),
            ("Y", 8, .rstruct [("y1", 0, .rint)])]

/-- An embedded struct followed by a plain sibling. -/
def tyMix : RType :=
  .rstruct [("X", 0, .rstruct [("x1", 0, .rint)]), ("Y", 8, .rint)]

/-- P3 of the benchmark file: `{E int; f *int; g **int}`. -/
def tyP3 : RType :=
  .rstruct [("E", 0, .rint), ("f", 8, .rptr .rint), ("g", 16, .rptr (.rptr .rint))]

/-- P2 of the benchmark file: `{C int; d int; *P3}`. -/
def tyP2 : RType :=
  .rstruct [("C", 0, .rint), ("d", 8, .rint), ("P3", 16, .rptr tyP3)]

/-- P1 of the benchmark file: `{A int; b int; P2}`. -/
def tyP1 : RType :=
  .rstruct [("A", 0, .rint), ("b", 8, .rint), ("P2", 16, tyP2)]

/-- The root sentinel of a one-field shape used in instance witnesses. -/
def sentinelFT : FieldType :=
  .mk rootID "" 0 "" 0 0 (.rstruct [("g", 0, .rptr (.rptr .rint))]) none

/-- A field of pointer depth 2 (like `g **int`) directly under the
sentinel, at offset 0. -/
def fldG : FieldType :=
  .mk 0 "g" 0 ".g" 1 2 .rint (some sentinelFT)

/-- A one-field shape holding `fldG`. -/
def stG : StructType :=
  { tid := 7, fields := [fldG], depth := 1 }

/-- Root sentinel of a P1-shaped instance, for the nested-field witness. -/
def sentinelP1 : FieldType :=
  .mk rootID "" 0 "" 0 0 tyP1 none

/-- The embedded `.P2` field of P1 (value struct, offset 16, id 2). -/
def fldP2 : FieldType :=
  .mk 2 "P2" 16 ".P2" 1 0 tyP2 (some sentinelP1)

/-- The nested `.P2.P3` field (a `*P3`, pointer depth 1, offset 16 inside
P2, id 5), whose parent is the real field `fldP2`. -/
def fldP3 : FieldType :=
  .mk 5 "P3" 16 ".P2.P3" 2 1 tyP3 (some fldP2)

/-- A P1-shaped bound instance at address 1 with nine empty cache slots. -/
def sP1 : Struct :=
  { styp := { tid := 9, fields := [], depth := 3 }, value := 1,
    fieldValues := List.replicate 9 0 }

/-- Memory for that instance: the `*P3` slot (address 1 + 16 + 16 = 33)
holds a nil pointer; the rest of the instance is value cells. -/
def memP1 : Mem :=
  List.replicate 32 (Cell.cval 0) ++ [Cell.cptr none]

/-! ### Lemmas -/

@[simp]
lemma FieldType.id_mk (i : Int) (n : String) (o : Nat) (s : String) (d pn : Nat)
    (t : RType) (pr : Option FieldType) : (FieldType.mk i n o s d pn t pr).id = i := rfl

@[simp]
lemma FieldType.name_mk (i : Int) (n : String) (o : Nat) (s : String) (d pn : Nat)
    (t : RType) (pr : Option FieldType) : (FieldType.mk i n o s d pn t pr).name = n := rfl

@[simp]
lemma FieldType.offset_mk (i : Int) (n : String) (o : Nat) (s : String) (d pn : Nat)
    (t : RType) (pr : Option FieldType) : (FieldType.mk i n o s d pn t pr).offset = o := rfl

@[simp]
lemma FieldType.selector_mk (i : Int) (n : String) (o : Nat) (s : String) (d pn : Nat)
    (t : RType) (pr : Option FieldType) : (FieldType.mk i n o s d pn t pr).selector = s := rfl

@[simp]
lemma FieldType.deep_mk (i : Int) (n : String) (o : Nat) (s : String) (d pn : Nat)
    (t : RType) (pr : Option FieldType) : (FieldType.mk i n o s d pn t pr).deep = d := rfl

@[simp]
lemma FieldType.ptrNum_mk (i : Int) (n : String) (o : Nat) (s : String) (d pn : Nat)
    (t : RType) (pr : Option FieldType) : (FieldType.mk i n o s d pn t pr).ptrNum = pn := rfl

@[simp]
lemma FieldType.elemTyp_mk (i : Int) (n : String) (o : Nat) (s : String) (d pn : Nat)
    (t : RType) (pr : Option FieldType) : (FieldType.mk i n o s d pn t pr).elemTyp = t := rfl

@[simp]
lemma FieldType.parent_mk (i : Int) (n : String) (o : Nat) (s : String) (d pn : Nat)
    (t : RType) (pr : Option FieldType) : (FieldType.mk i n o s d pn t pr).parent = pr := rfl


lemma fieldsInv_nil : FieldsInv [] := by
  constructor
  · intro j f h; simp [List.get?] at h
  · intro f h; simp at h

lemma fieldsInv_append {l : List FieldType} {f : FieldType} (h : FieldsInv l)
    (hid : f.id = (l.length : Int)) (hok : FieldOK f) : FieldsInv (l ++ [f]) := by
  constructor
  · intro j g hg
    rcases lt_trichotomy j l.length with hj | hj | hj
    · rw [List.get?_append hj] at hg
      exact h.1 j g hg
    · subst hj
      rw [List.get?_concat_length] at hg
      cases hg
      exact hid
    · have hlen : (l ++ [f]).length ≤ j := by
        simp only [List.length_append, List.length_singleton]
        omega
      rw [List.get?_eq_none.mpr hlen] at hg
      cases hg
  · intro g hg
    rcases List.mem_append.mp hg with h1 | h1
    · exact h.2 g h1
    · rw [List.mem_singleton] at h1
      subst h1
      exact hok

lemma processLevel_spec (it : Option (FieldType → IterPolicy)) (parent : FieldType) (d : Nat) :
    ∀ (ms : List (String × Nat × RType)) (st : TravState),
    FieldsInv st.fields → POk st.fields parent →
    (∃ tail, (processLevel it parent d ms st).1.fields = st.fields ++ tail) ∧
    (processLevel it parent d ms st).1.depth = st.depth ∧
    FieldsInv (processLevel it parent d ms st).1.fields ∧
    (∀ q ∈ (processLevel it parent d ms st).2,
      q.id < ((processLevel it parent d ms st).1.fields.length : Int) ∧
      q.parent = some parent) := by
  intro ms
  induction ms with
  | nil =>
    intro st hinv hp
    refine ⟨⟨[], by simp [processLevel]⟩, by simp [processLevel], by simpa [processLevel] using hinv, ?_⟩
    intro q hq
    simp [processLevel] at hq
  | cons hd rest ih =>
    obtain ⟨nm, off, ty⟩ := hd
    intro st hinv hp
    have hfok : FieldOK (FieldType.mk (st.fields.length : Int) nm off
        (joinFieldName parent.selector nm) d (stripPtr ty).1 (stripPtr ty).2 (some parent)) := by
      refine ⟨parent, rfl, hp.1, rfl, hp.2⟩
    have hinv' : FieldsInv (st.fields ++ [FieldType.mk (st.fields.length : Int) nm off
        (joinFieldName parent.selector nm) d (stripPtr ty).1 (stripPtr ty).2 (some parent)]) :=
      fieldsInv_append hinv rfl hfok
    have hp' : POk (st.fields ++ [FieldType.mk (st.fields.length : Int) nm off
        (joinFieldName parent.selector nm) d (stripPtr ty).1 (stripPtr ty).2 (some parent)]) parent := by
      refine ⟨?_, hp.2⟩
      have := hp.1
      simp only [List.length_append, List.length_singleton]
      push_cast
      omega
    set field : FieldType := FieldType.mk (st.fields.length : Int) nm off
        (joinFieldName parent.selector nm) d (stripPtr ty).1 (stripPtr ty).2 (some parent) with hfield
    set st' : TravState := { st with fields := st.fields ++ [field] } with hst'
    have hext1 : ∃ t1, st'.fields = st.fields ++ t1 := ⟨[field], rfl⟩
    cases it with
    | none =>
      have hr := ih st' hinv' hp'
      obtain ⟨⟨tail, htail⟩, hdep, hinvr, hq⟩ := hr
      have hred : processLevel none parent d ((nm, off, ty) :: rest) st
          = ((processLevel none parent d rest st').1,
             (if (stripPtr ty).2.isStruct then [field] else [])
               ++ (processLevel none parent d rest st').2) := by
        simp only [processLevel]
      rw [hred]
      refine ⟨⟨[field] ++ tail, by simp [htail, hst']⟩, by simpa using hdep, hinvr, ?_⟩
      intro q hq2
      rcases List.mem_append.mp hq2 with h1 | h1
      · by_cases hs : (stripPtr ty).2.isStruct
        · simp [hs] at h1
          subst h1
          constructor
          · rw [htail]
            simp only [hst', List.length_append, List.length_singleton, hfield]
            show (st.fields.length : Int) < ((st.fields.length + 1 + tail.length : Nat) : Int)
            push_cast
            omega
          · rfl
        · simp [hs] at h1
      · exact hq q h1
    | some itf =>
      have hr := ih st' hinv' hp'
      obtain ⟨⟨tail, htail⟩, hdep, hinvr, hq⟩ := hr
      have hr0 := ih st hinv hp
      obtain ⟨⟨tail0, htail0⟩, hdep0, hinvr0, hq0⟩ := hr0
      have hflt : ∀ (l : List FieldType), st'.fields = st.fields ++ l →
          field.id < ((st'.fields).length : Int) := by
        intro l hl
        simp only [hst', List.length_append, List.length_singleton, hfield]
        show (st.fields.length : Int) < ((st.fields.length + 1 : Nat) : Int)
        push_cast
        omega
      cases hpol : itf field with
      | take =>
        have hred : processLevel (some itf) parent d ((nm, off, ty) :: rest) st
            = ((processLevel (some itf) parent d rest st').1,
               (if (stripPtr ty).2.isStruct then [field] else [])
                 ++ (processLevel (some itf) parent d rest st').2) := by
          simp [processLevel, hpol]
        rw [hred]
        refine ⟨⟨[field] ++ tail, by simp [htail, hst']⟩, by simpa using hdep, hinvr, ?_⟩
        intro q hq2
        rcases List.mem_append.mp hq2 with h1 | h1
        · by_cases hs : (stripPtr ty).2.isStruct
          · simp [hs] at h1
            subst h1
            refine ⟨?_, rfl⟩
            rw [htail]
            simp only [hst', List.length_append, List.length_singleton, hfield]
            show (st.fields.length : Int) < ((st.fields.length + 1 + tail.length : Nat) : Int)
            push_cast
            omega
          · simp [hs] at h1
        · exact hq q h1
      | hide =>
        have hred : processLevel (some itf) parent d ((nm, off, ty) :: rest) st
            = ((processLevel (some itf) parent d rest st').1,
               (if (stripPtr ty).2.isStruct then [field] else [])
                 ++ (processLevel (some itf) parent d rest st').2) := by
          simp [processLevel, hpol]
        rw [hred]
        refine ⟨⟨[field] ++ tail, by simp [htail, hst']⟩, by simpa using hdep, hinvr, ?_⟩
        intro q hq2
        rcases List.mem_append.mp hq2 with h1 | h1
        · by_cases hs : (stripPtr ty).2.isStruct
          · simp [hs] at h1
            subst h1
            refine ⟨?_, rfl⟩
            rw [htail]
            simp only [hst', List.length_append, List.length_singleton, hfield]
            show (st.fields.length : Int) < ((st.fields.length + 1 + tail.length : Nat) : Int)
            push_cast
            omega
          · simp [hs] at h1
        · exact hq q h1
      | hideAndStop =>
        have hred : processLevel (some itf) parent d ((nm, off, ty) :: rest) st
            = ((processLevel (some itf) parent d rest st').1,
               (if (stripPtr ty).2.isStruct then [field] else [])
                 ++ (processLevel (some itf) parent d rest st').2) := by
          simp [processLevel, hpol]
        rw [hred]
        refine ⟨⟨[field] ++ tail, by simp [htail, hst']⟩, by simpa using hdep, hinvr, ?_⟩
        intro q hq2
        rcases List.mem_append.mp hq2 with h1 | h1
        · by_cases hs : (stripPtr ty).2.isStruct
          · simp [hs] at h1
            subst h1
            refine ⟨?_, rfl⟩
            rw [htail]
            simp only [hst', List.length_append, List.length_singleton, hfield]
            show (st.fields.length : Int) < ((st.fields.length + 1 + tail.length : Nat) : Int)
            push_cast
            omega
          · simp [hs] at h1
        · exact hq q h1
      | takeAndStop =>
        have hred : processLevel (some itf) parent d ((nm, off, ty) :: rest) st
            = (st', if (stripPtr ty).2.isStruct then [field] else []) := by
          simp [processLevel, hpol]
        rw [hred]
        refine ⟨⟨[field], rfl⟩, rfl, hinv', ?_⟩
        intro q hq2
        by_cases hs : (stripPtr ty).2.isStruct
        · simp [hs] at hq2
          subst hq2
          refine ⟨?_, rfl⟩
          simp only [hst', List.length_append, List.length_singleton, hfield]
          show (st.fields.length : Int) < ((st.fields.length + 1 : Nat) : Int)
          push_cast
          omega
        · simp [hs] at hq2
      | skipOffspring =>
        have hred : processLevel (some itf) parent d ((nm, off, ty) :: rest) st
            = processLevel (some itf) parent d rest st' := by
          simp [processLevel, hpol]
        rw [hred]
        exact ⟨⟨[field] ++ tail, by simp [htail, hst']⟩, by simpa using hdep, hinvr, hq⟩
      | skipOffspringAndStop =>
        have hred : processLevel (some itf) parent d ((nm, off, ty) :: rest) st
            = (st', []) := by
          simp [processLevel, hpol]
        rw [hred]
        refine ⟨⟨[field], rfl⟩, rfl, hinv', ?_⟩
        intro q hq2
        simp at hq2
      | skip =>
        have hred : processLevel (some itf) parent d ((nm, off, ty) :: rest) st
            = processLevel (some itf) parent d rest st := by
          simp [processLevel, hpol]
        rw [hred]
        exact ⟨⟨tail0, htail0⟩, hdep0, hinvr0, hq0⟩
      | skipAndStop =>
        have hred : processLevel (some itf) parent d ((nm, off, ty) :: rest) st
            = (st, []) := by
          simp [processLevel, hpol]
        rw [hred]
        refine ⟨⟨[], by simp⟩, rfl, hinv, ?_⟩
        intro q hq2
        simp at hq2

lemma traversalFieldsF_spec (maxD : Nat) (it : Option (FieldType → IterPolicy)) :
    ∀ (fuel : Nat) (st : TravState) (parent : FieldType),
    FieldsInv st.fields → POk st.fields parent →
    (∃ tail, (traversalFieldsF maxD it fuel st parent).fields = st.fields ++ tail) ∧
    FieldsInv (traversalFieldsF maxD it fuel st parent).fields := by
  intro fuel
  induction fuel with
  | zero =>
    intro st parent hinv hp
    exact ⟨⟨[], by simp [traversalFieldsF]⟩, by simpa [traversalFieldsF] using hinv⟩
  | succ fuel ih =>
    intro st parent hinv hp
    by_cases hg : maxD ≤ st.depth
    · have hred : traversalFieldsF maxD it (fuel + 1) st parent = st := by
        simp [traversalFieldsF, hg]
      rw [hred]
      exact ⟨⟨[], by simp⟩, hinv⟩
    · cases het : parent.elemTyp with
      | rstruct members =>
        have hred : traversalFieldsF maxD it (fuel + 1) st parent
            = (processLevel it parent (st.depth + 1) members
                { st with depth := st.depth + 1 }).2.foldl
                (fun acc f => traversalFieldsF maxD it fuel acc f)
                (processLevel it parent (st.depth + 1) members
                  { st with depth := st.depth + 1 }).1 := by
          simp [traversalFieldsF, hg, het]
        rw [hred]
        have hps := processLevel_spec it parent (st.depth + 1) members
          { st with depth := st.depth + 1 } hinv hp
        obtain ⟨⟨tail2, htail2⟩, _, hinv2, hq2⟩ := hps
        have hfold : ∀ (qs : List FieldType) (acc : TravState),
            FieldsInv acc.fields →
            (∃ t, acc.fields = st.fields ++ t) →
            (∀ q ∈ qs, q.id < (acc.fields.length : Int) ∧ q.parent = some parent) →
            (∃ tl, (qs.foldl (fun a f => traversalFieldsF maxD it fuel a f) acc).fields
               = st.fields ++ tl) ∧
            FieldsInv (qs.foldl (fun a f => traversalFieldsF maxD it fuel a f) acc).fields := by
          intro qs
          induction qs with
          | nil =>
            intro acc hai hae _
            exact ⟨hae, hai⟩
          | cons q qs ihq =>
            intro acc hai hae hqs
            have hpq : POk acc.fields q := by
              refine ⟨(hqs q (List.mem_cons_self q qs)).1, ?_⟩
              intro hn
              rw [(hqs q (List.mem_cons_self q qs)).2] at hn
              cases hn
            have hstep := ih acc q hai hpq
            obtain ⟨⟨t3, ht3⟩, hinv3⟩ := hstep
            simp only [List.foldl_cons]
            apply ihq _ hinv3
            · obtain ⟨t4, ht4⟩ := hae
              exact ⟨t4 ++ t3, by rw [ht3, ht4, List.append_assoc]⟩
            · intro q' hq'
              refine ⟨?_, (hqs q' (List.mem_cons_of_mem q hq')).2⟩
              have h1 := (hqs q' (List.mem_cons_of_mem q hq')).1
              rw [ht3]
              simp only [List.length_append]
              push_cast
              push_cast at h1
              omega
        apply hfold
        · exact hinv2
        · exact ⟨tail2, htail2⟩
        · exact hq2
      | rint =>
        have hred : traversalFieldsF maxD it (fuel + 1) st parent
            = { st with depth := st.depth + 1 } := by
          simp [traversalFieldsF, hg, het]
        rw [hred]
        exact ⟨⟨[], by simp⟩, hinv⟩
      | rptr t =>
        have hred : traversalFieldsF maxD it (fuel + 1) st parent
            = { st with depth := st.depth + 1 } := by
          simp [traversalFieldsF, hg, het]
        rw [hred]
        exact ⟨⟨[], by simp⟩, hinv⟩

lemma newStructType_fields (maxDeep : Nat) (it : Option (FieldType → IterPolicy))
    (tid : Int) (t : RType) :
    (newStructType maxDeep it tid t).fields
      = (traversalFieldsF maxDeep it maxDeep ⟨[], 0⟩
          (.mk rootID "" 0 "" 0 0 t none)).fields := rfl

lemma newStructType_inv (maxDeep : Nat) (it : Option (FieldType → IterPolicy))
    (tid : Int) (t : RType) :
    FieldsInv (newStructType maxDeep it tid t).fields := by
  rw [newStructType_fields]
  have hp : POk ([] : List FieldType) (.mk rootID "" 0 "" 0 0 t none) := by
    refine ⟨?_, fun _ => ⟨rfl, rfl⟩⟩
    show (rootID : Int) < ((([] : List FieldType).length : Nat) : Int)
    decide
  exact (traversalFieldsF_spec maxDeep it maxDeep ⟨[], 0⟩ _ fieldsInv_nil hp).2

lemma processLevel_none_spec (parent : FieldType) (d : Nat) :
    ∀ (ms : List (String × Nat × RType)) (st : TravState),
    (processLevel none parent d ms st).1.fields.map FieldType.selector
      = st.fields.map FieldType.selector
        ++ ms.map (fun mem => joinFieldName parent.selector mem.1) ∧
    (processLevel none parent d ms st).1.depth = st.depth ∧
    (processLevel none parent d ms st).2.map (fun f => (f.selector, f.elemTyp))
      = ms.filterMap (fun mem =>
          let pe := stripPtr mem.2.2
          if pe.2.isStruct then some (joinFieldName parent.selector mem.1, pe.2)
          else none) := by
  intro ms
  induction ms with
  | nil =>
    intro st
    refine ⟨by simp [processLevel], by simp [processLevel], by simp [processLevel]⟩
  | cons hd rest ih =>
    obtain ⟨nm, off, ty⟩ := hd
    intro st
    set field : FieldType := FieldType.mk (st.fields.length : Int) nm off
        (joinFieldName parent.selector nm) d (stripPtr ty).1 (stripPtr ty).2
        (some parent) with hfield
    set st' : TravState := { st with fields := st.fields ++ [field] } with hst'
    have hred : processLevel none parent d ((nm, off, ty) :: rest) st
        = ((processLevel none parent d rest st').1,
           (if (stripPtr ty).2.isStruct then [field] else [])
             ++ (processLevel none parent d rest st').2) := by
      simp only [processLevel]
    rw [hred]
    obtain ⟨ha, hb, hc⟩ := ih st'
    refine ⟨?_, by simpa using hb, ?_⟩
    · rw [ha]
      simp [hst', hfield]
    · simp only [List.map_append, hc]
      by_cases hs : (stripPtr ty).2.isStruct
      · simp [hs, List.filterMap_cons, hfield]
      · simp [hs, List.filterMap_cons]

lemma specOrder_zero (maxD d : Nat) (sel : String) (t : RType) :
    specOrder maxD 0 d sel t = (d, []) := by
  cases t <;> rw [specOrder]

lemma specOrder_stop (maxD fuel d : Nat) (sel : String) (t : RType) (hg : maxD ≤ d) :
    specOrder maxD (fuel + 1) d sel t = (d, []) := by
  cases t <;> (rw [specOrder] <;> simp [hg])

lemma specOrder_rint (maxD fuel d : Nat) (sel : String) (hg : ¬ maxD ≤ d) :
    specOrder maxD (fuel + 1) d sel .rint = (d + 1, []) := by
  rw [specOrder] <;> simp [hg]

lemma specOrder_rptr (maxD fuel d : Nat) (sel : String) (t : RType) (hg : ¬ maxD ≤ d) :
    specOrder maxD (fuel + 1) d sel (.rptr t) = (d + 1, []) := by
  rw [specOrder] <;> simp [hg]

lemma specOrder_rstruct (maxD fuel d : Nat) (sel : String)
    (ms : List (String × Nat × RType)) (hg : ¬ maxD ≤ d) :
    specOrder maxD (fuel + 1) d sel (.rstruct ms)
      = ((specOrderList maxD fuel (d + 1)
            (ms.filterMap (fun mem =>
              let pe := stripPtr mem.2.2
              if pe.2.isStruct then some (joinFieldName sel mem.1, pe.2) else none))).1,
         ms.map (fun mem => joinFieldName sel mem.1)
           ++ (specOrderList maxD fuel (d + 1)
                (ms.filterMap (fun mem =>
                  let pe := stripPtr mem.2.2
                  if pe.2.isStruct then some (joinFieldName sel mem.1, pe.2)
                  else none))).2) := by
  rw [specOrder] <;> simp [hg]

lemma specOrderList_nil (maxD fuel d : Nat) :
    specOrderList maxD fuel d [] = (d, []) := by
  rw [specOrderList]

lemma specOrderList_cons (maxD fuel d : Nat) (me : String × RType)
    (rest : List (String × RType)) :
    specOrderList maxD fuel d (me :: rest)
      = ((specOrderList maxD fuel (specOrder maxD fuel d me.1 me.2).1 rest).1,
         (specOrder maxD fuel d me.1 me.2).2
           ++ (specOrderList maxD fuel (specOrder maxD fuel d me.1 me.2).1 rest).2) := by
  rw [specOrderList]

lemma traversalFieldsF_specOrder (maxD : Nat) :
    ∀ (fuel : Nat) (st : TravState) (parent : FieldType),
    (traversalFieldsF maxD none fuel st parent).fields.map FieldType.selector
      = st.fields.map FieldType.selector
        ++ (specOrder maxD fuel st.depth parent.selector parent.elemTyp).2 ∧
    (traversalFieldsF maxD none fuel st parent).depth
      = (specOrder maxD fuel st.depth parent.selector parent.elemTyp).1 := by
  intro fuel
  induction fuel with
  | zero =>
    intro st parent
    simp [traversalFieldsF, specOrder_zero]
  | succ fuel ih =>
    intro st parent
    by_cases hg : maxD ≤ st.depth
    · simp [traversalFieldsF, hg, specOrder_stop maxD fuel st.depth parent.selector parent.elemTyp hg]
    · cases het : parent.elemTyp with
      | rint => simp [traversalFieldsF, hg, het, specOrder_rint maxD fuel st.depth parent.selector hg]
      | rptr t => simp [traversalFieldsF, hg, het, specOrder_rptr maxD fuel st.depth parent.selector t hg]
      | rstruct ms =>
        have hfold : ∀ (qs : List FieldType) (acc : TravState),
            ((qs.foldl (fun a f => traversalFieldsF maxD none fuel a f) acc).fields.map
                FieldType.selector
              = acc.fields.map FieldType.selector
                ++ (specOrderList maxD fuel acc.depth
                      (qs.map (fun f => (f.selector, f.elemTyp)))).2) ∧
            (qs.foldl (fun a f => traversalFieldsF maxD none fuel a f) acc).depth
              = (specOrderList maxD fuel acc.depth
                  (qs.map (fun f => (f.selector, f.elemTyp)))).1 := by
          intro qs
          induction qs with
          | nil =>
            intro acc
            simp [specOrderList_nil]
          | cons q qs ihq =>
            intro acc
            simp only [List.foldl_cons, List.map_cons]
            obtain ⟨h1a, h1b⟩ := ih acc q
            obtain ⟨h2a, h2b⟩ := ihq (traversalFieldsF maxD none fuel acc q)
            have hred2 : specOrderList maxD fuel acc.depth
                ((q.selector, q.elemTyp) :: qs.map (fun f => (f.selector, f.elemTyp)))
                = ((specOrderList maxD fuel
                      (specOrder maxD fuel acc.depth q.selector q.elemTyp).1
                      (qs.map (fun f => (f.selector, f.elemTyp)))).1,
                   (specOrder maxD fuel acc.depth q.selector q.elemTyp).2
                     ++ (specOrderList maxD fuel
                          (specOrder maxD fuel acc.depth q.selector q.elemTyp).1
                          (qs.map (fun f => (f.selector, f.elemTyp)))).2) :=
              specOrderList_cons maxD fuel acc.depth (q.selector, q.elemTyp) _
            rw [hred2]
            constructor
            · rw [h2a, h1a, h1b, List.append_assoc]
            · rw [h2b, h1b]
        have hredL : traversalFieldsF maxD none (fuel + 1) st parent
            = (processLevel none parent (st.depth + 1) ms
                { st with depth := st.depth + 1 }).2.foldl
                (fun acc f => traversalFieldsF maxD none fuel acc f)
                (processLevel none parent (st.depth + 1) ms
                  { st with depth := st.depth + 1 }).1 := by
          simp [traversalFieldsF, hg, het]
        have hredR : specOrder maxD (fuel + 1) st.depth parent.selector (.rstruct ms)
            = ((specOrderList maxD fuel (st.depth + 1)
                  (ms.filterMap (fun mem =>
                    let pe := stripPtr mem.2.2
                    if pe.2.isStruct
                    then some (joinFieldName parent.selector mem.1, pe.2)
                    else none))).1,
               ms.map (fun mem => joinFieldName parent.selector mem.1)
                 ++ (specOrderList maxD fuel (st.depth + 1)
                      (ms.filterMap (fun mem =>
                        let pe := stripPtr mem.2.2
                        if pe.2.isStruct
                        then some (joinFieldName parent.selector mem.1, pe.2)
                        else none))).2) :=
          specOrder_rstruct maxD fuel st.depth parent.selector ms hg
        rw [hredL, hredR]
        obtain ⟨hpa, hpb, hpc⟩ := processLevel_none_spec parent (st.depth + 1) ms
          { st with depth := st.depth + 1 }
        obtain ⟨hfa, hfb⟩ := hfold
          (processLevel none parent (st.depth + 1) ms { st with depth := st.depth + 1 }).2
          (processLevel none parent (st.depth + 1) ms { st with depth := st.depth + 1 }).1
        rw [hpc] at hfa hfb
        rw [hpb] at hfa hfb
        constructor
        · rw [hfa, hpa]
          simp [List.append_assoc]
        · rw [hfb]

lemma newStructType_specOrder (maxD : Nat) (tid : Int) (t : RType) :
    (newStructType maxD none tid t).fields.map FieldType.selector
      = (specOrder maxD maxD 0 "" t).2 := by
  have h := (traversalFieldsF_specOrder maxD maxD ⟨[], 0⟩
    (.mk rootID "" 0 "" 0 0 t none)).1
  simpa [newStructType] using h

lemma analyze_idem (a : Accessor) (tid : Int) (t : RType) :
    (a.analyze tid t).2.analyze tid t = a.analyze tid t := by
  unfold Accessor.analyze
  cases hl : a.load tid with
  | some s => simp [hl]
  | none =>
    simp only [hl]
    have hload : (a.store (newStructType a.maxDeep a.iterator tid t)).load tid
        = some (newStructType a.maxDeep a.iterator tid t) := by
      show ((((newStructType a.maxDeep a.iterator tid t).tid,
          newStructType a.maxDeep a.iterator tid t) :: a.dict).find?
            (fun e => e.1 == tid)).map (fun e => e.2)
          = some (newStructType a.maxDeep a.iterator tid t)
      rw [List.find?_cons_of_pos]
      · rfl
      · show ((newStructType a.maxDeep a.iterator tid t).tid == tid) = true
        show (tid == tid) = true
        simp
    simp [hload]


lemma processLevel_depth (it : Option (FieldType → IterPolicy)) (parent : FieldType)
    (d : Nat) : ∀ (ms : List (String × Nat × RType)) (st : TravState),
    (processLevel it parent d ms st).1.depth = st.depth := by
  intro ms
  induction ms with
  | nil =>
    intro st
    rfl
  | cons hd rest ih =>
    obtain ⟨nm, off, ty⟩ := hd
    intro st
    cases it with
    | none => exact ih _
    | some itf =>
      rcases hpol : itf (FieldType.mk (st.fields.length : Int) nm off
          (joinFieldName parent.selector nm) d (stripPtr ty).1 (stripPtr ty).2
          (some parent)) with _ | _ | _ | _ | _ | _ | _ | _ <;>
        simp only [processLevel, hpol] <;>
        first
          | rfl
          | exact ih _
          | (split <;> first | rfl | exact ih _)

lemma traversalFieldsF_depth_le (maxD : Nat) (it : Option (FieldType → IterPolicy)) :
    ∀ (fuel : Nat) (st : TravState) (parent : FieldType),
    st.depth ≤ (traversalFieldsF maxD it fuel st parent).depth := by
  intro fuel
  induction fuel with
  | zero =>
    intro st parent
    exact Nat.le_refl _
  | succ fuel ih =>
    intro st parent
    by_cases hg : maxD ≤ st.depth
    · rw [show traversalFieldsF maxD it (fuel + 1) st parent = st from by
        simp [traversalFieldsF, hg]]
    · cases het : parent.elemTyp with
      | rint =>
        rw [show traversalFieldsF maxD it (fuel + 1) st parent
            = { st with depth := st.depth + 1 } from by
          simp [traversalFieldsF, hg, het]]
        exact Nat.le_succ _
      | rptr t =>
        rw [show traversalFieldsF maxD it (fuel + 1) st parent
            = { st with depth := st.depth + 1 } from by
          simp [traversalFieldsF, hg, het]]
        exact Nat.le_succ _
      | rstruct ms =>
        rw [show traversalFieldsF maxD it (fuel + 1) st parent
            = (processLevel it parent (st.depth + 1) ms
                { st with depth := st.depth + 1 }).2.foldl
                (fun acc f => traversalFieldsF maxD it fuel acc f)
                (processLevel it parent (st.depth + 1) ms
                  { st with depth := st.depth + 1 }).1 from by
          simp [traversalFieldsF, hg, het]]
        have hfold : ∀ (qs : List FieldType) (acc : TravState),
            acc.depth ≤ (qs.foldl (fun a f => traversalFieldsF maxD it fuel a f)
              acc).depth := by
          intro qs
          induction qs with
          | nil =>
            intro acc
            exact Nat.le_refl _
          | cons q qs ihq =>
            intro acc
            exact Nat.le_trans (ih acc q) (ihq _)
        have h1 : st.depth + 1
            ≤ (processLevel it parent (st.depth + 1) ms
                { st with depth := st.depth + 1 }).1.depth := by
          rw [processLevel_depth]
        exact Nat.le_trans (Nat.le_succ _) (Nat.le_trans h1 (hfold _ _))

lemma traversalFieldsF_fuel (maxD : Nat) (it : Option (FieldType → IterPolicy)) :
    ∀ (f1 f2 : Nat) (st : TravState) (parent : FieldType),
    maxD ≤ f1 + st.depth → maxD ≤ f2 + st.depth →
    traversalFieldsF maxD it f1 st parent = traversalFieldsF maxD it f2 st parent := by
  intro f1
  induction f1 with
  | zero =>
    intro f2 st parent h1 _
    rw [show traversalFieldsF maxD it 0 st parent = st from rfl]
    cases f2 with
    | zero => rfl
    | succ f2 =>
      rw [show traversalFieldsF maxD it (f2 + 1) st parent = st from by
        simp [traversalFieldsF]
        intro hg
        omega]
  | succ f1 ih =>
    intro f2 st parent h1 h2
    cases f2 with
    | zero =>
      rw [show traversalFieldsF maxD it 0 st parent = st from rfl]
      simp [traversalFieldsF]
      intro hg
      omega
    | succ f2 =>
      by_cases hg : maxD ≤ st.depth
      · rw [show traversalFieldsF maxD it (f1 + 1) st parent = st from by
            simp [traversalFieldsF, hg],
          show traversalFieldsF maxD it (f2 + 1) st parent = st from by
            simp [traversalFieldsF, hg]]
      · cases het : parent.elemTyp with
        | rint =>
          rw [show traversalFieldsF maxD it (f1 + 1) st parent
              = { st with depth := st.depth + 1 } from by
            simp [traversalFieldsF, hg, het]]
          rw [show traversalFieldsF maxD it (f2 + 1) st parent
              = { st with depth := st.depth + 1 } from by
            simp [traversalFieldsF, hg, het]]
        | rptr t =>
          rw [show traversalFieldsF maxD it (f1 + 1) st parent
              = { st with depth := st.depth + 1 } from by
            simp [traversalFieldsF, hg, het]]
          rw [show traversalFieldsF maxD it (f2 + 1) st parent
              = { st with depth := st.depth + 1 } from by
            simp [traversalFieldsF, hg, het]]
        | rstruct ms =>
          rw [show traversalFieldsF maxD it (f1 + 1) st parent
              = (processLevel it parent (st.depth + 1) ms
                  { st with depth := st.depth + 1 }).2.foldl
                  (fun acc f => traversalFieldsF maxD it f1 acc f)
                  (processLevel it parent (st.depth + 1) ms
                    { st with depth := st.depth + 1 }).1 from by
            simp [traversalFieldsF, hg, het]]
          rw [show traversalFieldsF maxD it (f2 + 1) st parent
              = (processLevel it parent (st.depth + 1) ms
                  { st with depth := st.depth + 1 }).2.foldl
                  (fun acc f => traversalFieldsF maxD it f2 acc f)
                  (processLevel it parent (st.depth + 1) ms
                    { st with depth := st.depth + 1 }).1 from by
            simp [traversalFieldsF, hg, het]]
          have hfold : ∀ (qs : List FieldType) (acc : TravState),
              st.depth + 1 ≤ acc.depth →
              qs.foldl (fun a f => traversalFieldsF maxD it f1 a f) acc
                = qs.foldl (fun a f => traversalFieldsF maxD it f2 a f) acc := by
            intro qs
            induction qs with
            | nil =>
              intro acc _
              rfl
            | cons q qs ihq =>
              intro acc hacc
              simp only [List.foldl_cons]
              rw [ih f2 acc q (by omega) (by omega)]
              apply ihq
              exact Nat.le_trans hacc (traversalFieldsF_depth_le maxD it f2 acc q)
          apply hfold
          rw [processLevel_depth]

/-! ### Claims -/

/-- C1 (code bug evidence): with an iterator returning Hide for every
member of a two-int struct, both members nevertheless appear in the flat
fields list, and with HideAndStop the second member is still processed —
the switch in `traversalFields` has no Hide/HideAndStop cases, so both
fall through `default` into the Take branch, contradicting the
IterPolicy documentation ("Hide does not appear in the range",
"HideAndStop does not appear in the range and stop iteration"). -/
theorem gofield_hide_policy_fields_included :
    ((newStructType 16 (some fun _ => IterPolicy.hide) 1 tyAB).fields.map
        FieldType.name = ["A", "B"])
  ∧ ((newStructType 16 (some fun _ => IterPolicy.hideAndStop) 1 tyAB).fields.map
        FieldType.name = ["A", "B"]) :=
  ⟨rfl, rfl⟩

/-- C2 (code bug evidence): analyzing a root with two sibling embedded
structs, the second sibling's sub-field `y1` is recorded at nesting
depth 3 even though its parent `Y` has depth 1 — the shared `s.depth`
counter is incremented by the expansion of the earlier sibling `X` and
never restored, so `deep` is not parent depth plus one. -/
theorem gofield_sibling_depth_accumulates :
    ((newStructType 16 none 1 tySib).fields.map (fun f => (f.name, f.deep))
      = [("X", 1), ("Y", 1), ("x1", 2), ("y1", 3)])
  ∧ (((newStructType 16 none 1 tySib).fields.get? 3).map
        (fun f => (f.deep, f.parent.map FieldType.deep)) = some (3, some 1)) :=
  ⟨rfl, rfl⟩

/-- C3 (counterexample): in the struct `{X struct{x1 int}; Y int}` the
flat list is `[X, Y, x1]` — the expanded sub-field `x1` of the composite
member `X` appears after `X`'s later sibling `Y`, so the list is not in
pre-order with each composite immediately followed by its sub-fields. -/
theorem gofield_subfield_after_later_sibling :
    ¬ preOrderAdjacent (newStructType 16 none 1 tyMix) := by
  intro h
  exact h 0 1 2 _ _ _ rfl rfl rfl (by decide) (by decide) rfl rfl

/-- C3 (amended): under the default policy the flat fields list follows
the level-wise order computed by `specOrder`: the members of each record
level appear contiguously in declaration order, followed by the
expansion blocks of that level's struct-element members in order, each
block complete before the next; and repeated analyses of the same type
through the cache return the identical shape. -/
theorem gofield_flat_order_levelwise_deterministic :
    (∀ (maxD : Nat) (tid : Int) (t : RType),
        (newStructType maxD none tid t).fields.map FieldType.selector
          = (specOrder maxD maxD 0 "" t).2)
  ∧ (∀ (a : Accessor) (tid : Int) (t : RType),
        (a.analyze tid t).2.analyze tid t = a.analyze tid t) :=
  ⟨fun maxD tid t => newStructType_specOrder maxD tid t,
   fun a tid t => analyze_idem a tid t⟩

/-- C4: for every analyzed type and every id in `[0, NumField)`, the
descriptor returned by `fieldType` exists and carries that id (ids are a
dense 0-based index into the flat list), its stored parent has a
strictly smaller id, and a parentless parent is the root sentinel with
id -1. -/
theorem gofield_field_ids_dense (maxDeep : Nat) (it : Option (FieldType → IterPolicy))
    (tid : Int) (t : RType) (i : Int)
    (h0 : 0 ≤ i) (h1 : i < (((newStructType maxDeep it tid t).NumField : Nat) : Int)) :
    ∃ f, (newStructType maxDeep it tid t).fieldType i = some f ∧ f.id = i ∧
      ∃ p, f.parent = some p ∧ p.id < f.id ∧ (p.parent = none → p.id = rootID) := by
  have hinv := newStructType_inv maxDeep it tid t
  have hlen : i.toNat < (newStructType maxDeep it tid t).fields.length := by
    have : ((newStructType maxDeep it tid t).NumField : Int)
        = ((newStructType maxDeep it tid t).fields.length : Int) := rfl
    omega
  cases hget : (newStructType maxDeep it tid t).fields.get? i.toNat with
  | none =>
    rw [List.get?_eq_none] at hget
    omega
  | some f =>
    refine ⟨f, ?_, ?_, ?_⟩
    · have hcheck : (newStructType maxDeep it tid t).checkID i = true := by
        simp only [StructType.checkID, Bool.and_eq_true, decide_eq_true_eq]
        constructor
        · exact h0
        · exact h1
      simp only [StructType.fieldType, hcheck, if_true]
      exact hget
    · have := hinv.1 i.toNat f hget
      rw [this]
      omega
    · obtain ⟨p, hp1, hp2, _, hp4⟩ := hinv.2 f (List.get?_mem hget)
      exact ⟨p, hp1, hp2, fun hn => (hp4 hn).1⟩

/-- C9 (amended): every listed field's selector is its parent's
selector joined with a dot and its own declared name; since the root
sentinel's selector is empty, a direct field of the root has selector
`"." ++ name` — with a leading separator, not the bare name. -/
theorem gofield_selector_join_amended (maxDeep : Nat) (it : Option (FieldType → IterPolicy))
    (tid : Int) (t : RType) (i : Nat) (f : FieldType)
    (h : (newStructType maxDeep it tid t).fields.get? i = some f) :
    ∃ p, f.parent = some p ∧ f.selector = p.selector ++ "." ++ f.name ∧
      (p.parent = none → f.selector = "." ++ f.name) := by
  have hinv := newStructType_inv maxDeep it tid t
  obtain ⟨p, hp1, _, hp3, hp4⟩ := hinv.2 f (List.get?_mem h)
  refine ⟨p, hp1, hp3, ?_⟩
  intro hn
  rw [hp3, (hp4 hn).2]
  rw [show (("" : String) ++ ".") = "." from rfl]



/-- Witness for C4: the P1 benchmark struct, id 5 (the `*P3` member). -/
theorem gofield_field_ids_dense_witness :
    ((0 : Int) ≤ 5
      ∧ (5 : Int) < (((newStructType 16 none 1 tyP1).NumField : Nat) : Int))
  ∧ (∃ f, (newStructType 16 none 1 tyP1).fieldType 5 = some f ∧ f.id = 5 ∧
      ∃ p, f.parent = some p ∧ p.id < f.id ∧ (p.parent = none → p.id = rootID)) :=
  ⟨⟨by decide, by decide⟩,
   gofield_field_ids_dense 16 none 1 tyP1 5 (by decide) (by decide)⟩

/-- C5 (code bug evidence): an iterator answering HideAndStop on member
B of a three-int struct leaves all three members in the flat list — the
missing HideAndStop case falls through to the Take branch, so the field
is included and the remaining sibling C is still processed; SkipAndStop
by contrast does halt after excluding B. -/
theorem gofield_hideAndStop_keeps_processing :
    ((newStructType 16 (some fun f => if f.name = "B" then IterPolicy.hideAndStop
        else IterPolicy.take) 1 tyABC).fields.map FieldType.name = ["A", "B", "C"])
  ∧ ((newStructType 16 (some fun f => if f.name = "B" then IterPolicy.skipAndStop
        else IterPolicy.take) 1 tyABC).fields.map FieldType.name = ["A"]) :=
  ⟨rfl, rfl⟩

/-- C9 (counterexample): the single direct field `A` of a one-field
struct gets selector ".A", not its bare declared name "A" —
`joinFieldName` in access.go joins unconditionally, with no empty-prefix
case. -/
theorem gofield_selector_leading_dot :
    (((newStructType 16 none 1 tyA).fields.get? 0).map FieldType.selector
        = some ".A")
  ∧ (((newStructType 16 none 1 tyA).fields.get? 0).map FieldType.selector
        ≠ some "A") :=
  ⟨rfl, by decide⟩

/-- Witness for C9 (amended): field 3 (`.P2.C`) of the P1 struct. -/
theorem gofield_selector_join_amended_witness :
    ((newStructType 16 none 1 tyP1).fields.get? 3
        = some (((newStructType 16 none 1 tyP1).fields.get? 3).getD defaultFT))
  ∧ (∃ p, (((newStructType 16 none 1 tyP1).fields.get? 3).getD defaultFT).parent
          = some p
      ∧ (((newStructType 16 none 1 tyP1).fields.get? 3).getD defaultFT).selector
          = p.selector ++ "." ++ (((newStructType 16 none 1 tyP1).fields.get? 3).getD
              defaultFT).name
      ∧ (p.parent = none →
          (((newStructType 16 none 1 tyP1).fields.get? 3).getD defaultFT).selector
            = "." ++ (((newStructType 16 none 1 tyP1).fields.get? 3).getD
                defaultFT).name)) :=
  ⟨rfl, gofield_selector_join_amended 16 none 1 tyP1 3 _ rfl⟩

lemma get?_some_lt {α : Type} {l : List α} {n : Nat} {a : α}
    (h : l.get? n = some a) : n < l.length := by
  by_contra hn
  rw [List.get?_eq_none.mpr (by omega)] at h
  cases h

lemma Mem.load_ne_zero {m : Mem} {a : Nat} {c : Cell} (h : m.load a = some c) :
    a ≠ 0 := by
  intro h0
  rw [h0] at h
  simp [Mem.load] at h

lemma Mem.load_lt {m : Mem} {a : Nat} {c : Cell} (h : m.load a = some c) :
    a - 1 < m.length := by
  have h0 := Mem.load_ne_zero h
  rw [Mem.load, if_neg h0] at h
  exact get?_some_lt h

lemma Mem.load_store_self {m : Mem} {a : Nat} {c : Cell} (c' : Cell)
    (h : m.load a = some c) : (m.store a c').load a = some c' := by
  have h0 := Mem.load_ne_zero h
  have hlt := Mem.load_lt h
  rw [Mem.store, if_neg h0, Mem.load, if_neg h0]
  exact List.get?_set_eq_of_lt c' hlt

lemma Mem.load_store_ne {m : Mem} {a b : Nat} (c' : Cell) (hne : a ≠ b) :
    (m.store a c').load b = m.load b := by
  by_cases ha : a = 0
  · rw [Mem.store, if_pos ha]
  · by_cases hb : b = 0
    · rw [Mem.load, if_pos hb, Mem.load, if_pos hb]
    · rw [Mem.store, if_neg ha, Mem.load, if_neg hb, Mem.load, if_neg hb]
      exact List.get?_set_ne c' m (by omega)

lemma Mem.load_append {m : Mem} {a : Nat} {c : Cell} (l : List Cell)
    (h : m.load a = some c) : Mem.load (m ++ l) a = some c := by
  have h0 := Mem.load_ne_zero h
  have hlt := Mem.load_lt h
  rw [Mem.load, if_neg h0] at h ⊢
  rw [List.get?_append hlt]
  exact h

lemma Mem.load_alloc (m : Mem) (c : Cell) :
    Mem.load (m ++ [c]) (m.length + 1) = some c := by
  rw [Mem.load, if_neg (by omega)]
  simp

lemma Mem.WF_store {m : Mem} {a : Nat} {c : Cell} (hwf : Mem.WF m = true)
    (hc : (match c with | .cptr (some b) => decide (1 ≤ b) | _ => true) = true) :
    Mem.WF (m.store a c) = true := by
  rw [Mem.store]
  by_cases ha : a = 0
  · rw [if_pos ha]; exact hwf
  · rw [if_neg ha]
    rw [Mem.WF, List.all_eq_true]
    intro x hx
    rcases List.mem_or_eq_of_mem_set hx with h1 | h1
    · exact (List.all_eq_true.mp hwf) x h1
    · rw [h1]; exact hc

lemma Mem.WF_append {m : Mem} {c : Cell} (hwf : Mem.WF m = true)
    (hc : (match c with | .cptr (some b) => decide (1 ≤ b) | _ => true) = true) :
    Mem.WF (m ++ [c]) = true := by
  rw [Mem.WF, List.all_eq_true]
  intro x hx
  rcases List.mem_append.mp hx with h1 | h1
  · exact (List.all_eq_true.mp hwf) x h1
  · rw [List.mem_singleton] at h1
    rw [h1]; exact hc

lemma Mem.WF_target {m : Mem} {a b : Nat} (hwf : Mem.WF m = true)
    (h : m.load a = some (.cptr (some b))) : 1 ≤ b := by
  have h0 := Mem.load_ne_zero h
  rw [Mem.load, if_neg h0] at h
  have hmem := List.get?_mem h
  have := (List.all_eq_true.mp hwf) _ hmem
  simpa using this


lemma derefPtrAndInit_zero (m : Mem) (a : Nat) :
    derefPtrAndInit m a 0 = (m, a) := by
  rw [derefPtrAndInit]

lemma derefPtrAndInit_some {m : Mem} {a b : Nat} (k : Nat)
    (h : m.load a = some (.cptr (some b))) :
    derefPtrAndInit m a (k + 1) = derefPtrAndInit m b k := by
  rw [derefPtrAndInit, h]

lemma derefPtrAndInit_none {m : Mem} {a : Nat} (k : Nat)
    (h : m.load a = some (.cptr none)) :
    derefPtrAndInit m a (k + 1)
      = derefPtrAndInit
          (Mem.store (m ++ [if k = 0 then Cell.cval 0 else Cell.cptr none]) a
            (.cptr (some (m.length + 1))))
          (m.length + 1) k := by
  rw [derefPtrAndInit, h]
  rfl

lemma derefPtrAndInit_cval {m : Mem} {a : Nat} (k : Nat) {x : Int}
    (h : m.load a = some (.cval x)) :
    derefPtrAndInit m a (k + 1) = (m, a) := by
  rw [derefPtrAndInit, h]

lemma derefPtrAndInit_unmapped {m : Mem} {a : Nat} (k : Nat)
    (h : m.load a = none) :
    derefPtrAndInit m a (k + 1) = (m, a) := by
  rw [derefPtrAndInit, h]

lemma derefPtrAndInit_preserve :
    ∀ (k : Nat) (m : Mem) (a c : Nat) (cell : Cell),
    m.load c = some cell → cell ≠ .cptr none →
    ((derefPtrAndInit m a k).1).load c = some cell := by
  intro k
  induction k with
  | zero =>
    intro m a c cell hc _
    exact hc
  | succ k ih =>
    intro m a c cell hc hcell
    cases hla : m.load a with
    | none =>
      rw [derefPtrAndInit, hla]
      exact hc
    | some ca =>
      cases ca with
      | cval x =>
        rw [derefPtrAndInit, hla]
        exact hc
      | cptr t =>
        cases t with
        | some b =>
          rw [derefPtrAndInit, hla]
          exact ih m b c cell hc hcell
        | none =>
          rw [derefPtrAndInit, hla]
          have hca : c ≠ a := by
            intro he
            rw [he, hla] at hc
            cases hc
            exact hcell rfl
          have h1 : Mem.load (m ++ [if k = 0 then Cell.cval 0 else Cell.cptr none]) c
              = some cell := Mem.load_append _ hc
          have h2 : Mem.load (Mem.store
              (m ++ [if k = 0 then Cell.cval 0 else Cell.cptr none]) a
              (.cptr (some (m.length + 1)))) c = some cell := by
            rw [Mem.load_store_ne _ (fun he => hca he.symm)]
            exact h1
          exact ih _ _ c cell h2 hcell

lemma derefPtrAndInit_pos :
    ∀ (k : Nat) (m : Mem) (a : Nat), Mem.WF m = true → 0 < a →
    0 < (derefPtrAndInit m a k).2 ∧ Mem.WF (derefPtrAndInit m a k).1 = true := by
  intro k
  induction k with
  | zero =>
    intro m a hwf ha
    exact ⟨ha, hwf⟩
  | succ k ih =>
    intro m a hwf ha
    cases hla : m.load a with
    | none =>
      rw [derefPtrAndInit, hla]
      exact ⟨ha, hwf⟩
    | some ca =>
      cases ca with
      | cval x =>
        rw [derefPtrAndInit, hla]
        exact ⟨ha, hwf⟩
      | cptr t =>
        cases t with
        | some b =>
          rw [derefPtrAndInit, hla]
          have hb := Mem.WF_target hwf hla
          exact ih m b hwf (by omega)
        | none =>
          rw [derefPtrAndInit, hla]
          have hwf1 : Mem.WF (m ++ [if k = 0 then Cell.cval 0 else Cell.cptr none])
              = true := by
            apply Mem.WF_append hwf
            by_cases hk : k = 0 <;> simp [hk]
          have hwf2 : Mem.WF (Mem.store
              (m ++ [if k = 0 then Cell.cval 0 else Cell.cptr none]) a
              (.cptr (some (m.length + 1)))) = true := by
            apply Mem.WF_store hwf1
            simp
          exact ih _ (m.length + 1) hwf2 (by omega)


lemma derefPtrAndInit_chain :
    ∀ (k : Nat) (m : Mem) (a : Nat), chainWFb m a k = true →
    fullChainb (derefPtrAndInit m a k).1 a (derefPtrAndInit m a k).2 k = true := by
  intro k
  induction k with
  | zero =>
    intro m a hc
    rw [chainWFb] at hc
    rw [derefPtrAndInit, fullChainb]
    simp only [decide_eq_true_eq]
    cases hla : m.load a with
    | none => rw [hla] at hc; cases hc
    | some ca =>
      cases ca with
      | cval x => simp [hla]
      | cptr t => rw [hla] at hc; cases hc
  | succ k ih =>
    intro m a hc
    rw [chainWFb] at hc
    cases hla : m.load a with
    | none => rw [hla] at hc; cases hc
    | some ca =>
      cases ca with
      | cval x => rw [hla] at hc; cases hc
      | cptr t =>
        cases t with
        | some b =>
          rw [hla] at hc
          rw [derefPtrAndInit_some k hla]
          have hpres := derefPtrAndInit_preserve k m b a (.cptr (some b)) hla
            (by intro h; cases h)
          simp only [fullChainb, hpres]
          exact ih m b hc
        | none =>
          have hane := Mem.load_ne_zero hla
          have halt := Mem.load_lt hla
          set zc : Cell := if k = 0 then Cell.cval 0 else Cell.cptr none with hzc
          set m2 : Mem := Mem.store (m ++ [zc]) a (.cptr (some (m.length + 1)))
            with hm2
          have hredD : derefPtrAndInit m a (k + 1)
              = derefPtrAndInit m2 (m.length + 1) k := by
            rw [hm2, hzc]
            exact derefPtrAndInit_none k hla
          have hld2 : m2.load a = some (.cptr (some (m.length + 1))) := by
            rw [hm2]
            exact Mem.load_store_self _ (Mem.load_append [zc] hla)
          have hldb : m2.load (m.length + 1) = some zc := by
            rw [hm2, Mem.load_store_ne _ (by omega)]
            exact Mem.load_alloc m zc
          have hch2 : chainWFb m2 (m.length + 1) k = true := by
            cases k with
            | zero =>
              rw [chainWFb, hldb]
              simp [hzc]
            | succ k2 =>
              rw [chainWFb, hldb]
              simp only [hzc]
              rw [if_neg (by omega)]
          rw [hredD]
          have hpres := derefPtrAndInit_preserve k m2 (m.length + 1) a
            (.cptr (some (m.length + 1))) hld2 (by intro h; cases h)
          simp only [fullChainb, hpres]
          exact ih m2 (m.length + 1) hch2

lemma fullChainb_end :
    ∀ (k : Nat) (m : Mem) (a r : Nat), fullChainb m a r k = true →
    ∃ y, m.load r = some (.cval y) := by
  intro k
  induction k with
  | zero =>
    intro m a r h
    rw [fullChainb] at h
    simp only [Bool.and_eq_true, decide_eq_true_eq] at h
    obtain ⟨har, h2⟩ := h
    subst har
    cases hla : m.load a with
    | none => rw [hla] at h2; cases h2
    | some ca =>
      cases ca with
      | cval x => exact ⟨x, rfl⟩
      | cptr t => rw [hla] at h2; cases h2
  | succ k ih =>
    intro m a r h
    rw [fullChainb] at h
    cases hla : m.load a with
    | none => rw [hla] at h; cases h
    | some ca =>
      cases ca with
      | cval x => rw [hla] at h; cases h
      | cptr t =>
        cases t with
        | some b =>
          rw [hla] at h
          exact ih m b r h
        | none => rw [hla] at h; cases h

lemma fullChainb_write :
    ∀ (k : Nat) (m : Mem) (a r : Nat), fullChainb m a r k = true → ∀ (x : Int),
    followChain (m.store r (.cval x)) a k = some r ∧
    (m.store r (.cval x)).load r = some (.cval x) := by
  intro k
  induction k with
  | zero =>
    intro m a r h x
    rw [fullChainb] at h
    simp only [Bool.and_eq_true, decide_eq_true_eq] at h
    obtain ⟨har, h2⟩ := h
    subst har
    constructor
    · rw [followChain]
    · cases hla : m.load a with
      | none => rw [hla] at h2; cases h2
      | some ca =>
        exact Mem.load_store_self _ hla
  | succ k ih =>
    intro m a r h x
    obtain ⟨y, hy⟩ := fullChainb_end (k + 1) m a r h
    rw [fullChainb] at h
    cases hla : m.load a with
    | none => rw [hla] at h; cases h
    | some ca =>
      cases ca with
      | cval z => rw [hla] at h; cases h
      | cptr t =>
        cases t with
        | some b =>
          rw [hla] at h
          have hne : r ≠ a := by
            intro he
            rw [he, hla] at hy
            cases hy
          constructor
          · rw [followChain, Mem.load_store_ne _ hne, hla]
            exact (ih m b r h x).1
          · exact (ih m b r h x).2
        | none => rw [hla] at h; cases h


/-- C6: resolving any field of positive pointer depth `k` first resolves
its parent chain (`p.init`, for an arbitrary parent `p`, so fields at
any nesting depth are covered), then runs `derefPtrAndInit` from the
field's slot — the parent's resolved address plus the field's byte
offset — allocating a zero-valued target for every nil pointer in the
chain and storing it through that pointer before continuing.  Afterwards
the pointer chain from that slot inside the materialized instance is
fully non-nil (`fullChainb`), and a write through the returned view
(`Mem.store` at the resolved address) is read back by following the
chain from the field's slot in the instance. -/
theorem gofield_nil_chain_autovivify (s : Struct) (m : Mem) (i : Int) (nm : String)
    (off : Nat) (sel : String) (dp k : Nat) (et : RType) (p : FieldType)
    (hk : 0 < k)
    (hcache : s.fieldValues.getD i.toNat 0 = 0)
    (hchain : chainWFb (p.init s m).2.2 ((p.init s m).1 + off) k = true) :
    fullChainb ((FieldType.mk i nm off sel dp k et (some p)).init s m).2.2
        ((p.init s m).1 + off)
        ((FieldType.mk i nm off sel dp k et (some p)).init s m).1 k = true
    ∧ ∀ (x : Int),
        followChain ((((FieldType.mk i nm off sel dp k et (some p)).init s m).2.2).store
            (((FieldType.mk i nm off sel dp k et (some p)).init s m).1) (.cval x))
          ((p.init s m).1 + off) k
          = some (((FieldType.mk i nm off sel dp k et (some p)).init s m).1)
        ∧ ((((FieldType.mk i nm off sel dp k et (some p)).init s m).2.2).store
            (((FieldType.mk i nm off sel dp k et (some p)).init s m).1) (.cval x)).load
            (((FieldType.mk i nm off sel dp k et (some p)).init s m).1)
          = some (.cval x) := by
  have hinit : (FieldType.mk i nm off sel dp k et (some p)).init s m
      = ((derefPtrAndInit (p.init s m).2.2 ((p.init s m).1 + off) k).2,
         ⟨(p.init s m).2.1.styp, (p.init s m).2.1.value,
           (p.init s m).2.1.fieldValues.set i.toNat
             (derefPtrAndInit (p.init s m).2.2 ((p.init s m).1 + off) k).2⟩,
         (derefPtrAndInit (p.init s m).2.2 ((p.init s m).1 + off) k).1) := by
    rw [FieldType.init, hcache]
    simp [hk]
  rw [hinit]
  have hfull := derefPtrAndInit_chain k (p.init s m).2.2 ((p.init s m).1 + off)
    hchain
  exact ⟨hfull, fun x => fullChainb_write k _ _ _ hfull x⟩

/-- Witness for C6 at a nested field: the spec example's `*P3` member
(`fldP3`, name path `.P2.P3`, pointer depth 1, offset 16 inside the
embedded `P2`), whose parent is the real field `fldP2` — not the root
sentinel — behind a nil pointer at slot 33 of `memP1`. -/
theorem gofield_nil_chain_autovivify_witness :
    (0 < 1
      ∧ sP1.fieldValues.getD (5 : Int).toNat 0 = 0
      ∧ chainWFb (fldP2.init sP1 memP1).2.2 ((fldP2.init sP1 memP1).1 + 16) 1
          = true)
    ∧ (fullChainb ((FieldType.mk 5 "P3" 16 ".P2.P3" 2 1 tyP3
            (some fldP2)).init sP1 memP1).2.2
          ((fldP2.init sP1 memP1).1 + 16)
          ((FieldType.mk 5 "P3" 16 ".P2.P3" 2 1 tyP3
            (some fldP2)).init sP1 memP1).1 1 = true
      ∧ ∀ (x : Int),
          followChain ((((FieldType.mk 5 "P3" 16 ".P2.P3" 2 1 tyP3
                (some fldP2)).init sP1 memP1).2.2).store
              (((FieldType.mk 5 "P3" 16 ".P2.P3" 2 1 tyP3
                (some fldP2)).init sP1 memP1).1) (.cval x))
            ((fldP2.init sP1 memP1).1 + 16) 1
            = some (((FieldType.mk 5 "P3" 16 ".P2.P3" 2 1 tyP3
                (some fldP2)).init sP1 memP1).1)
          ∧ ((((FieldType.mk 5 "P3" 16 ".P2.P3" 2 1 tyP3
                (some fldP2)).init sP1 memP1).2.2).store
              (((FieldType.mk 5 "P3" 16 ".P2.P3" 2 1 tyP3
                (some fldP2)).init sP1 memP1).1) (.cval x)).load
              (((FieldType.mk 5 "P3" 16 ".P2.P3" 2 1 tyP3
                (some fldP2)).init sP1 memP1).1)
            = some (.cval x)) :=
  ⟨⟨by decide, rfl, by decide⟩,
   gofield_nil_chain_autovivify sP1 memP1 5 "P3" 16 ".P2.P3" 2 1 tyP3 fldP2
     (by decide) rfl (by decide)⟩


lemma getD_set_ne (l : List Nat) {i j : Nat} (a : Nat) (h : i ≠ j) :
    (l.set i a).getD j 0 = l.getD j 0 := by
  rw [List.getD_eq_getD_get?, List.getD_eq_getD_get?, List.get?_set_ne a l h]

lemma getD_set_self (l : List Nat) {i : Nat} (a : Nat) (h : i < l.length) :
    (l.set i a).getD i 0 = a := by
  rw [List.getD_eq_getD_get?, List.get?_set_eq_of_lt a h]
  rfl

/-- Core specification of lazy materialization: `init` returns a
positive resolved address, preserves memory well-formedness, the bound
value, the shape and the cache size, never changes an already-populated
cache slot, and leaves the field's own slot holding the returned
address (for non-sentinel fields). -/
theorem init_spec : ∀ (f : FieldType) (s : Struct) (m : Mem),
    Mem.WF m = true → 0 < s.value → ancOK s.fieldValues.length f = true →
    0 < (f.init s m).1
    ∧ Mem.WF (f.init s m).2.2 = true
    ∧ (f.init s m).2.1.styp = s.styp
    ∧ (f.init s m).2.1.value = s.value
    ∧ (f.init s m).2.1.fieldValues.length = s.fieldValues.length
    ∧ (∀ j, 0 < s.fieldValues.getD j 0 →
        (f.init s m).2.1.fieldValues.getD j 0 = s.fieldValues.getD j 0)
    ∧ (∀ q, f.parent = some q →
        (f.init s m).2.1.fieldValues.getD f.id.toNat 0 = (f.init s m).1)
  | .mk i nm off sel dp pn et none, s, m => by
    intro hwf hval _
    have hr : (FieldType.mk i nm off sel dp pn et none).init s m = (s.value, s, m) := by
      rw [FieldType.init]
    rw [hr]
    refine ⟨hval, hwf, rfl, rfl, rfl, fun j h => rfl, fun q hq => ?_⟩
    rw [FieldType.parent_mk] at hq
    cases hq
  | .mk i nm off sel dp pn et (some p), s, m => by
    intro hwf hval hanc
    rw [ancOK] at hanc
    simp only [Bool.and_eq_true, decide_eq_true_eq] at hanc
    obtain ⟨⟨hi0, hilen⟩, hancp⟩ := hanc
    by_cases hv : 0 < s.fieldValues.getD i.toNat 0
    · have hr : (FieldType.mk i nm off sel dp pn et (some p)).init s m
          = (s.fieldValues.getD i.toNat 0, s, m) := by
        rw [FieldType.init, if_pos hv]
      rw [hr]
      exact ⟨hv, hwf, rfl, rfl, rfl, fun j h => rfl, fun q hq => by simp⟩
    · obtain ⟨ih1, ih2, ih3, ih4, ih5, ih6, _⟩ := init_spec p s m hwf hval hancp
      have hr : (FieldType.mk i nm off sel dp pn et (some p)).init s m
          = ((if 0 < pn
              then derefPtrAndInit (p.init s m).2.2 ((p.init s m).1 + off) pn
              else ((p.init s m).2.2, (p.init s m).1 + off)).2,
             ⟨(p.init s m).2.1.styp, (p.init s m).2.1.value,
               (p.init s m).2.1.fieldValues.set i.toNat
                 (if 0 < pn
                  then derefPtrAndInit (p.init s m).2.2 ((p.init s m).1 + off) pn
                  else ((p.init s m).2.2, (p.init s m).1 + off)).2⟩,
             (if 0 < pn
              then derefPtrAndInit (p.init s m).2.2 ((p.init s m).1 + off) pn
              else ((p.init s m).2.2, (p.init s m).1 + off)).1) := by
        rw [FieldType.init, if_neg hv]
      have hdr : 0 < (if 0 < pn
            then derefPtrAndInit (p.init s m).2.2 ((p.init s m).1 + off) pn
            else ((p.init s m).2.2, (p.init s m).1 + off)).2
          ∧ Mem.WF (if 0 < pn
            then derefPtrAndInit (p.init s m).2.2 ((p.init s m).1 + off) pn
            else ((p.init s m).2.2, (p.init s m).1 + off)).1 = true := by
        by_cases hpn : 0 < pn
        · rw [if_pos hpn]
          have := derefPtrAndInit_pos pn (p.init s m).2.2 ((p.init s m).1 + off)
            ih2 (by omega)
          exact ⟨this.1, this.2⟩
        · rw [if_neg hpn]
          exact ⟨by omega, ih2⟩
      rw [hr]
      refine ⟨hdr.1, hdr.2, ih3, ih4, ?_, ?_, ?_⟩
      · show ((p.init s m).2.1.fieldValues.set i.toNat _).length
            = s.fieldValues.length
        rw [List.length_set]
        exact ih5
      · intro j hj
        have hjne : i.toNat ≠ j := by
          intro he
          rw [he] at hv
          omega
        show ((p.init s m).2.1.fieldValues.set i.toNat _).getD j 0
            = s.fieldValues.getD j 0
        rw [getD_set_ne _ _ hjne]
        exact ih6 j hj
      · intro q _
        show ((p.init s m).2.1.fieldValues.set i.toNat _).getD
            (FieldType.mk i nm off sel dp pn et (some p)).id.toNat 0 = _
        rw [FieldType.id_mk]
        rw [getD_set_self]
        rw [ih5]
        exact hilen


lemma RangeFrom_preserves (fn : FieldType → Nat → Bool) :
    ∀ (flds : List FieldType) (idx : Nat) (s : Struct) (m : Mem),
    Mem.WF m = true → 0 < s.value →
    (∀ f ∈ flds, ancOK s.fieldValues.length f = true) →
    Mem.WF (Struct.RangeFrom fn flds idx s m).1.2 = true
    ∧ (Struct.RangeFrom fn flds idx s m).1.1.value = s.value
    ∧ (Struct.RangeFrom fn flds idx s m).1.1.styp = s.styp
    ∧ (Struct.RangeFrom fn flds idx s m).1.1.fieldValues.length
        = s.fieldValues.length
    ∧ (∀ j, 0 < s.fieldValues.getD j 0 →
        (Struct.RangeFrom fn flds idx s m).1.1.fieldValues.getD j 0
          = s.fieldValues.getD j 0) := by
  intro flds
  induction flds with
  | nil =>
    intro idx s m hwf hval _
    exact ⟨hwf, rfl, rfl, rfl, fun j _ => rfl⟩
  | cons t rest ih =>
    intro idx s m hwf hval hanc
    by_cases hv : 0 < s.fieldValues.getD idx 0
    · by_cases hfn : fn t (s.fieldValues.getD idx 0) = true
      · have hr : Struct.RangeFrom fn (t :: rest) idx s m
            = ((Struct.RangeFrom fn rest (idx + 1) s m).1,
               (idx, s.fieldValues.getD idx 0)
                 :: (Struct.RangeFrom fn rest (idx + 1) s m).2) := by
          rw [Struct.RangeFrom, if_pos hv, if_pos hfn]
        rw [hr]
        exact ih (idx + 1) s m hwf hval (fun f hf => hanc f (List.mem_cons_of_mem t hf))
      · have hr : Struct.RangeFrom fn (t :: rest) idx s m
            = ((s, m), [(idx, s.fieldValues.getD idx 0)]) := by
          rw [Struct.RangeFrom, if_pos hv, if_neg hfn]
        rw [hr]
        exact ⟨hwf, rfl, rfl, rfl, fun j _ => rfl⟩
    · obtain ⟨ih1, ih2, ih3, ih4, ih5, ih6, _⟩ := init_spec t s m hwf hval
        (hanc t (List.mem_cons_self t rest))
      by_cases hfn : fn t (t.init s m).1 = true
      · have hr : Struct.RangeFrom fn (t :: rest) idx s m
            = ((Struct.RangeFrom fn rest (idx + 1) (t.init s m).2.1
                  (t.init s m).2.2).1,
               (idx, (t.init s m).1)
                 :: (Struct.RangeFrom fn rest (idx + 1) (t.init s m).2.1
                      (t.init s m).2.2).2) := by
          rw [Struct.RangeFrom, if_neg hv, if_pos hfn]
        rw [hr]
        have hrec := ih (idx + 1) (t.init s m).2.1 (t.init s m).2.2 ih2
          (by rw [ih4]; exact hval)
          (fun f hf => by
            rw [ih5]
            exact hanc f (List.mem_cons_of_mem t hf))
        refine ⟨hrec.1, ?_, ?_, ?_, ?_⟩
        · rw [hrec.2.1, ih4]
        · rw [hrec.2.2.1, ih3]
        · rw [hrec.2.2.2.1, ih5]
        · intro j hj
          rw [hrec.2.2.2.2 j (by rw [ih6 j hj]; exact hj)]
          exact ih6 j hj
      · have hr : Struct.RangeFrom fn (t :: rest) idx s m
            = (((t.init s m).2.1, (t.init s m).2.2), [(idx, (t.init s m).1)]) := by
          rw [Struct.RangeFrom, if_neg hv, if_neg hfn]
        rw [hr]
        exact ⟨ih2, ih4, ih3, ih5, ih6⟩


/-- C7: resolving a valid field id a second time returns the very same
cached view (address, accessor and memory all unchanged), the resolved
address is positive (so the `elemPtr > 0` population test holds), and no
operation clears a populated slot: both `FieldValue` and `Range` leave
every populated slot of the per-accessor cache intact. -/
theorem gofield_resolve_idempotent_cache_monotone (s : Struct) (m : Mem) (id : Int)
    (f : FieldType)
    (hwf : Mem.WF m = true) (hval : 0 < s.value)
    (hchk : s.styp.checkID id = true)
    (hget : s.styp.fields.get? id.toNat = some f)
    (hfid : f.id = id)
    (hanc : ancOK s.fieldValues.length f = true)
    (hpar : f.parent.isSome = true)
    (hall : ∀ g ∈ s.styp.fields, ancOK s.fieldValues.length g = true) :
    ((s.FieldValue m id).2.1.FieldValue (s.FieldValue m id).2.2 id
        = ((s.FieldValue m id).1, (s.FieldValue m id).2.1, (s.FieldValue m id).2.2))
    ∧ 0 < (s.FieldValue m id).1
    ∧ (∀ j, 0 < s.fieldValues.getD j 0 →
        (s.FieldValue m id).2.1.fieldValues.getD j 0 = s.fieldValues.getD j 0)
    ∧ (∀ (fn : FieldType → Nat → Bool) (j : Nat), 0 < s.fieldValues.getD j 0 →
        (s.Range m fn).1.1.fieldValues.getD j 0 = s.fieldValues.getD j 0) := by
  have hrange : ∀ (fn : FieldType → Nat → Bool) (j : Nat),
      0 < s.fieldValues.getD j 0 →
      (s.Range m fn).1.1.fieldValues.getD j 0 = s.fieldValues.getD j 0 := by
    intro fn j hj
    exact (RangeFrom_preserves fn s.styp.fields 0 s m hwf hval hall).2.2.2.2 j hj
  by_cases hv : 0 < s.fieldValues.getD id.toNat 0
  · have hr : s.FieldValue m id = (s.fieldValues.getD id.toNat 0, s, m) := by
      rw [Struct.FieldValue, if_pos hchk, if_pos hv]
    rw [hr]
    refine ⟨?_, hv, fun j _ => rfl, hrange⟩
    rw [Struct.FieldValue, if_pos hchk, if_pos hv]
  · obtain ⟨q, hq⟩ := Option.isSome_iff_exists.mp hpar
    obtain ⟨ih1, ih2, ih3, ih4, ih5, ih6, ih7⟩ := init_spec f s m hwf hval hanc
    have hslot := ih7 q hq
    have hr : s.FieldValue m id = f.init s m := by
      rw [Struct.FieldValue, if_pos hchk, if_neg hv, hget]
    rw [hr]
    have hchk2 : (f.init s m).2.1.styp.checkID id = true := by
      rw [ih3]
      exact hchk
    have hcache2 : 0 < (f.init s m).2.1.fieldValues.getD id.toNat 0 := by
      rw [← hfid]
      rw [hslot]
      exact ih1
    refine ⟨?_, ih1, ih6, hrange⟩
    rw [Struct.FieldValue, if_pos hchk2, if_pos hcache2]
    rw [← hfid, hslot]


/-- Witness for C7 on the one-field `g **int` shape. -/
theorem gofield_resolve_idempotent_witness :
    (Mem.WF [Cell.cptr none] = true ∧ 0 < (newStruct stG 1).value
      ∧ (newStruct stG 1).styp.checkID 0 = true
      ∧ (newStruct stG 1).styp.fields.get? (0 : Int).toNat = some fldG
      ∧ fldG.id = 0
      ∧ ancOK (newStruct stG 1).fieldValues.length fldG = true
      ∧ fldG.parent.isSome = true
      ∧ (∀ g ∈ (newStruct stG 1).styp.fields,
          ancOK (newStruct stG 1).fieldValues.length g = true))
    ∧ ((((newStruct stG 1).FieldValue [Cell.cptr none] 0).2.1.FieldValue
            ((newStruct stG 1).FieldValue [Cell.cptr none] 0).2.2 0
          = (((newStruct stG 1).FieldValue [Cell.cptr none] 0).1,
             ((newStruct stG 1).FieldValue [Cell.cptr none] 0).2.1,
             ((newStruct stG 1).FieldValue [Cell.cptr none] 0).2.2))
      ∧ 0 < ((newStruct stG 1).FieldValue [Cell.cptr none] 0).1
      ∧ (∀ j, 0 < (newStruct stG 1).fieldValues.getD j 0 →
          ((newStruct stG 1).FieldValue [Cell.cptr none] 0).2.1.fieldValues.getD j 0
            = (newStruct stG 1).fieldValues.getD j 0)
      ∧ (∀ (fn : FieldType → Nat → Bool) (j : Nat),
          0 < (newStruct stG 1).fieldValues.getD j 0 →
          ((newStruct stG 1).Range [Cell.cptr none] fn).1.1.fieldValues.getD j 0
            = (newStruct stG 1).fieldValues.getD j 0)) :=
  ⟨⟨rfl, by decide, rfl, rfl, rfl, rfl, rfl, by decide⟩,
   gofield_resolve_idempotent_cache_monotone (newStruct stG 1) [Cell.cptr none] 0 fldG
     rfl (by decide) rfl rfl rfl rfl rfl (by decide)⟩


/-- Lazy resolution via `init` only writes cache slots at or below the field's own id
(its own slot and ancestor slots), so slots with larger indices are
untouched. -/
theorem init_touch : ∀ (f : FieldType) (s : Struct) (m : Mem) (j : Nat),
    ancIdLt f = true → ancOK s.fieldValues.length f = true → f.id.toNat < j →
    (f.init s m).2.1.fieldValues.getD j 0 = s.fieldValues.getD j 0
  | .mk i nm off sel dp pn et none, s, m, j => by
    intro _ _ _
    have hr : (FieldType.mk i nm off sel dp pn et none).init s m = (s.value, s, m) := by
      rw [FieldType.init]
    rw [hr]
  | .mk i nm off sel dp pn et (some p), s, m, j => by
    intro hlt hanc hij
    rw [ancIdLt] at hlt
    rw [ancOK] at hanc
    simp only [Bool.and_eq_true, decide_eq_true_eq] at hlt hanc
    obtain ⟨hpi, hltp⟩ := hlt
    obtain ⟨⟨hi0, hilen⟩, hancp⟩ := hanc
    rw [FieldType.id_mk] at hij
    by_cases hv : 0 < s.fieldValues.getD i.toNat 0
    · have hr : (FieldType.mk i nm off sel dp pn et (some p)).init s m
          = (s.fieldValues.getD i.toNat 0, s, m) := by
        rw [FieldType.init, if_pos hv]
      rw [hr]
    · have hr : (FieldType.mk i nm off sel dp pn et (some p)).init s m
          = ((if 0 < pn
              then derefPtrAndInit (p.init s m).2.2 ((p.init s m).1 + off) pn
              else ((p.init s m).2.2, (p.init s m).1 + off)).2,
             ⟨(p.init s m).2.1.styp, (p.init s m).2.1.value,
               (p.init s m).2.1.fieldValues.set i.toNat
                 (if 0 < pn
                  then derefPtrAndInit (p.init s m).2.2 ((p.init s m).1 + off) pn
                  else ((p.init s m).2.2, (p.init s m).1 + off)).2⟩,
             (if 0 < pn
              then derefPtrAndInit (p.init s m).2.2 ((p.init s m).1 + off) pn
              else ((p.init s m).2.2, (p.init s m).1 + off)).1) := by
        rw [FieldType.init, if_neg hv]
      rw [hr]
      show ((p.init s m).2.1.fieldValues.set i.toNat _).getD j 0
          = s.fieldValues.getD j 0
      rw [getD_set_ne _ _ (by omega)]
      obtain ⟨pi, pnm, poff, psel, pdp, ppn, pet, ppar⟩ := p
      cases ppar with
      | none =>
        have hpr : (FieldType.mk pi pnm poff psel pdp ppn pet none).init s m
            = (s.value, s, m) := by
          rw [FieldType.init]
        rw [hpr]
      | some gp =>
        apply init_touch (FieldType.mk pi pnm poff psel pdp ppn pet (some gp)) s m j
          hltp hancp
        rw [FieldType.id_mk] at hpi ⊢
        rw [ancOK] at hancp
        simp only [Bool.and_eq_true, decide_eq_true_eq] at hancp
        omega


lemma RangeFrom_ne_nil (fn : FieldType → Nat → Bool) (t : FieldType)
    (rest : List FieldType) (idx : Nat) (s : Struct) (m : Mem) :
    (Struct.RangeFrom fn (t :: rest) idx s m).2 ≠ [] := by
  by_cases hv : 0 < s.fieldValues.getD idx 0
  · by_cases hfn : fn t (s.fieldValues.getD idx 0) = true
    · rw [Struct.RangeFrom, if_pos hv, if_pos hfn]
      simp
    · rw [Struct.RangeFrom, if_pos hv, if_neg hfn]
      simp
  · by_cases hfn : fn t (t.init s m).1 = true
    · rw [Struct.RangeFrom, if_neg hv, if_pos hfn]
      simp
    · rw [Struct.RangeFrom, if_neg hv, if_neg hfn]
      simp

lemma RangeFrom_trace (fn : FieldType → Nat → Bool) :
    ∀ (flds : List FieldType) (idx : Nat) (s : Struct) (m : Mem),
    Mem.WF m = true → 0 < s.value →
    (∀ k f, flds.get? k = some f → f.id = ((idx + k : Nat) : Int)
        ∧ ancIdLt f = true ∧ ancOK s.fieldValues.length f = true
        ∧ f.parent.isSome = true) →
    ((Struct.RangeFrom fn flds idx s m).2.map Prod.fst
        = List.range' idx (Struct.RangeFrom fn flds idx s m).2.length)
    ∧ (Struct.RangeFrom fn flds idx s m).2.length ≤ flds.length
    ∧ (∀ k, k + 1 < (Struct.RangeFrom fn flds idx s m).2.length →
        ∃ f p, flds.get? k = some f
          ∧ (Struct.RangeFrom fn flds idx s m).2.get? k = some p ∧ fn f p.2 = true)
    ∧ ((Struct.RangeFrom fn flds idx s m).2.length < flds.length →
        ∃ f p, flds.get? ((Struct.RangeFrom fn flds idx s m).2.length - 1) = some f
          ∧ (Struct.RangeFrom fn flds idx s m).2.get?
              ((Struct.RangeFrom fn flds idx s m).2.length - 1) = some p
          ∧ fn f p.2 = false)
    ∧ (∀ j, idx + (Struct.RangeFrom fn flds idx s m).2.length ≤ j →
        (Struct.RangeFrom fn flds idx s m).1.1.fieldValues.getD j 0
          = s.fieldValues.getD j 0)
    ∧ (∀ k p, (Struct.RangeFrom fn flds idx s m).2.get? k = some p →
        0 < p.2 ∧ (Struct.RangeFrom fn flds idx s m).1.1.fieldValues.getD p.1 0
          = p.2) := by
  intro flds
  induction flds with
  | nil =>
    intro idx s m hwf hval hflds
    refine ⟨rfl, by simp [Struct.RangeFrom], ?_, ?_, ?_, ?_⟩
    · intro k hk
      simp [Struct.RangeFrom] at hk
    · intro hlen
      simp [Struct.RangeFrom] at hlen
    · intro j _
      rfl
    · intro k p hp
      simp [Struct.RangeFrom] at hp
  | cons t rest ih =>
    intro idx s m hwf hval hflds
    have ht := hflds 0 t rfl
    rw [Nat.add_zero] at ht
    obtain ⟨htid, htlt, htanc, htpar⟩ := ht
    have hancrest : ∀ (s' : Struct),
        s'.fieldValues.length = s.fieldValues.length →
        ∀ g ∈ rest, ancOK s'.fieldValues.length g = true := by
      intro s' hlen g hg
      obtain ⟨k, hk⟩ := List.mem_iff_get?.mp hg
      rw [hlen]
      exact (hflds (k + 1) g (by rw [List.get?_cons_succ]; exact hk)).2.2.1
    have hshift : ∀ (s' : Struct),
        s'.fieldValues.length = s.fieldValues.length →
        ∀ k f, rest.get? k = some f → f.id = (((idx + 1) + k : Nat) : Int)
          ∧ ancIdLt f = true ∧ ancOK s'.fieldValues.length f = true
          ∧ f.parent.isSome = true := by
      intro s' hlen k f hk
      have h := hflds (k + 1) f (by rw [List.get?_cons_succ]; exact hk)
      refine ⟨?_, h.2.1, by rw [hlen]; exact h.2.2.1, h.2.2.2⟩
      rw [h.1]
      congr 1
      omega
    by_cases hv : 0 < s.fieldValues.getD idx 0
    · by_cases hfn : fn t (s.fieldValues.getD idx 0) = true
      · have hr : Struct.RangeFrom fn (t :: rest) idx s m
            = ((Struct.RangeFrom fn rest (idx + 1) s m).1,
               (idx, s.fieldValues.getD idx 0)
                 :: (Struct.RangeFrom fn rest (idx + 1) s m).2) := by
          rw [Struct.RangeFrom, if_pos hv, if_pos hfn]
        rw [hr]
        obtain ⟨c1, c2, c3, c4, c5, c6⟩ := ih (idx + 1) s m hwf hval (hshift s rfl)
        have hpres := RangeFrom_preserves fn rest (idx + 1) s m hwf hval
          (hancrest s rfl)
        refine ⟨?_, ?_, ?_, ?_, ?_, ?_⟩
        · simp only [List.map_cons, List.length_cons]
          rw [List.range'_succ, c1]
        · simp only [List.length_cons, List.length_cons]
          omega
        · intro k hk
          cases k with
          | zero =>
            exact ⟨t, (idx, s.fieldValues.getD idx 0), rfl, rfl, hfn⟩
          | succ k' =>
            simp only [List.length_cons] at hk
            obtain ⟨f, p, h1, h2, h3⟩ := c3 k' (by omega)
            refine ⟨f, p, ?_, ?_, h3⟩
            · rw [List.get?_cons_succ]
              exact h1
            · rw [List.get?_cons_succ]
              exact h2
        · intro hlen
          simp only [List.length_cons] at hlen ⊢
          cases hn : (Struct.RangeFrom fn rest (idx + 1) s m).2.length with
          | zero =>
            exfalso
            cases hrest : rest with
            | nil =>
              rw [hn] at hlen
              rw [hrest] at hlen
              simp at hlen
            | cons t2 rest2 =>
              have := RangeFrom_ne_nil fn t2 rest2 (idx + 1) s m
              rw [← hrest] at this
              rw [List.length_eq_zero] at hn
              exact this hn
          | succ n' =>
            have hlt : (Struct.RangeFrom fn rest (idx + 1) s m).2.length
                < rest.length := by omega
            obtain ⟨f, p, h1, h2, h3⟩ := c4 hlt
            rw [hn] at h1 h2
            refine ⟨f, p, ?_, ?_, h3⟩
            · rw [show n' + 1 + 1 - 1 = n' + 1 from by omega, List.get?_cons_succ]
              simpa using h1
            · rw [show n' + 1 + 1 - 1 = n' + 1 from by omega, List.get?_cons_succ]
              simpa using h2
        · intro j hj
          simp only [List.length_cons] at hj
          exact c5 j (by omega)
        · intro k p hp
          cases k with
          | zero =>
            rw [List.get?_cons_zero] at hp
            cases hp
            refine ⟨hv, ?_⟩
            exact hpres.2.2.2.2 idx hv
          | succ k' =>
            rw [List.get?_cons_succ] at hp
            exact c6 k' p hp
      · have hr : Struct.RangeFrom fn (t :: rest) idx s m
            = ((s, m), [(idx, s.fieldValues.getD idx 0)]) := by
          rw [Struct.RangeFrom, if_pos hv, if_neg hfn]
        rw [hr]
        refine ⟨by simp [List.range'_succ], by simp, ?_, ?_, fun j _ => rfl, ?_⟩
        · intro k hk
          simp at hk
        · intro _
          exact ⟨t, (idx, s.fieldValues.getD idx 0), rfl, rfl,
            Bool.not_eq_true _ ▸ hfn⟩
        · intro k p hp
          cases k with
          | zero =>
            rw [List.get?_cons_zero] at hp
            cases hp
            exact ⟨hv, rfl⟩
          | succ k' =>
            simp at hp
    · obtain ⟨ih1, ih2, ih3, ih4, ih5, ih6, ih7⟩ := init_spec t s m hwf hval htanc
      obtain ⟨q, hq⟩ := Option.isSome_iff_exists.mp htpar
      have hslot : (t.init s m).2.1.fieldValues.getD idx 0 = (t.init s m).1 := by
        have h := ih7 q hq
        rw [htid] at h
        rw [Int.toNat_natCast] at h
        exact h
      have htouch : ∀ j, idx < j →
          (t.init s m).2.1.fieldValues.getD j 0 = s.fieldValues.getD j 0 := by
        intro j hj
        apply init_touch t s m j htlt htanc
        rw [htid, Int.toNat_natCast]
        exact hj
      by_cases hfn : fn t (t.init s m).1 = true
      · have hr : Struct.RangeFrom fn (t :: rest) idx s m
            = ((Struct.RangeFrom fn rest (idx + 1) (t.init s m).2.1
                  (t.init s m).2.2).1,
               (idx, (t.init s m).1)
                 :: (Struct.RangeFrom fn rest (idx + 1) (t.init s m).2.1
                      (t.init s m).2.2).2) := by
          rw [Struct.RangeFrom, if_neg hv, if_pos hfn]
        rw [hr]
        obtain ⟨c1, c2, c3, c4, c5, c6⟩ := ih (idx + 1) (t.init s m).2.1
          (t.init s m).2.2 ih2 (by rw [ih4]; exact hval) (hshift _ ih5)
        have hpres := RangeFrom_preserves fn rest (idx + 1) (t.init s m).2.1
          (t.init s m).2.2 ih2 (by rw [ih4]; exact hval) (hancrest _ ih5)
        refine ⟨?_, ?_, ?_, ?_, ?_, ?_⟩
        · simp only [List.map_cons, List.length_cons]
          rw [List.range'_succ, c1]
        · simp only [List.length_cons, List.length_cons]
          omega
        · intro k hk
          cases k with
          | zero =>
            exact ⟨t, (idx, (t.init s m).1), rfl, rfl, hfn⟩
          | succ k' =>
            simp only [List.length_cons] at hk
            obtain ⟨f, p, h1, h2, h3⟩ := c3 k' (by omega)
            refine ⟨f, p, ?_, ?_, h3⟩
            · rw [List.get?_cons_succ]
              exact h1
            · rw [List.get?_cons_succ]
              exact h2
        · intro hlen
          simp only [List.length_cons] at hlen ⊢
          cases hn : (Struct.RangeFrom fn rest (idx + 1) (t.init s m).2.1
              (t.init s m).2.2).2.length with
          | zero =>
            exfalso
            cases hrest : rest with
            | nil =>
              rw [hn] at hlen
              rw [hrest] at hlen
              simp at hlen
            | cons t2 rest2 =>
              have := RangeFrom_ne_nil fn t2 rest2 (idx + 1) (t.init s m).2.1
                (t.init s m).2.2
              rw [← hrest] at this
              rw [List.length_eq_zero] at hn
              exact this hn
          | succ n' =>
            have hlt : (Struct.RangeFrom fn rest (idx + 1) (t.init s m).2.1
                (t.init s m).2.2).2.length < rest.length := by omega
            obtain ⟨f, p, h1, h2, h3⟩ := c4 hlt
            rw [hn] at h1 h2
            refine ⟨f, p, ?_, ?_, h3⟩
            · rw [show n' + 1 + 1 - 1 = n' + 1 from by omega, List.get?_cons_succ]
              simpa using h1
            · rw [show n' + 1 + 1 - 1 = n' + 1 from by omega, List.get?_cons_succ]
              simpa using h2
        · intro j hj
          simp only [List.length_cons] at hj
          rw [c5 j (by omega)]
          exact htouch j (by omega)
        · intro k p hp
          cases k with
          | zero =>
            rw [List.get?_cons_zero] at hp
            cases hp
            refine ⟨ih1, ?_⟩
            rw [hpres.2.2.2.2 idx (by rw [hslot]; exact ih1)]
            exact hslot
          | succ k' =>
            rw [List.get?_cons_succ] at hp
            exact c6 k' p hp
      · have hr : Struct.RangeFrom fn (t :: rest) idx s m
            = (((t.init s m).2.1, (t.init s m).2.2), [(idx, (t.init s m).1)]) := by
          rw [Struct.RangeFrom, if_neg hv, if_neg hfn]
        rw [hr]
        refine ⟨by simp [List.range'_succ], by simp, ?_, ?_, ?_, ?_⟩
        · intro k hk
          simp at hk
        · intro _
          exact ⟨t, (idx, (t.init s m).1), rfl, rfl, Bool.not_eq_true _ ▸ hfn⟩
        · intro j hj
          simp only [List.length_singleton] at hj
          exact htouch j (by omega)
        · intro k p hp
          cases k with
          | zero =>
            rw [List.get?_cons_zero] at hp
            cases hp
            exact ⟨ih1, hslot⟩
          | succ k' =>
            simp at hp


/-- C10: `Range` invokes the callback on fields in ascending id order
starting from 0 (the trace's first components are `List.range`),
stopping right after the first callback returning false (every
non-final trace entry has a true callback, and if the trace is shorter
than the field list the final one is false); cache slots of the
unvisited higher ids are left exactly as they were, and every visited
field's view is materialized (positive) and cached in its slot. -/
theorem gofield_range_visits_in_order (s : Struct) (m : Mem)
    (fn : FieldType → Nat → Bool)
    (hwf : Mem.WF m = true) (hval : 0 < s.value)
    (hflds : ∀ k f, s.styp.fields.get? k = some f → f.id = (k : Int)
        ∧ ancIdLt f = true ∧ ancOK s.fieldValues.length f = true
        ∧ f.parent.isSome = true) :
    ((s.Range m fn).2.map Prod.fst = List.range (s.Range m fn).2.length)
    ∧ (s.Range m fn).2.length ≤ s.styp.fields.length
    ∧ (∀ k, k + 1 < (s.Range m fn).2.length →
        ∃ f p, s.styp.fields.get? k = some f
          ∧ (s.Range m fn).2.get? k = some p ∧ fn f p.2 = true)
    ∧ ((s.Range m fn).2.length < s.styp.fields.length →
        ∃ f p, s.styp.fields.get? ((s.Range m fn).2.length - 1) = some f
          ∧ (s.Range m fn).2.get? ((s.Range m fn).2.length - 1) = some p
          ∧ fn f p.2 = false)
    ∧ (∀ j, (s.Range m fn).2.length ≤ j →
        (s.Range m fn).1.1.fieldValues.getD j 0 = s.fieldValues.getD j 0)
    ∧ (∀ k p, (s.Range m fn).2.get? k = some p →
        0 < p.2 ∧ (s.Range m fn).1.1.fieldValues.getD p.1 0 = p.2) := by
  have hflds0 : ∀ k f, s.styp.fields.get? k = some f → f.id = ((0 + k : Nat) : Int)
      ∧ ancIdLt f = true ∧ ancOK s.fieldValues.length f = true
      ∧ f.parent.isSome = true := by
    intro k f hk
    have h := hflds k f hk
    refine ⟨?_, h.2.1, h.2.2.1, h.2.2.2⟩
    rw [h.1]
    congr 1
    omega
  obtain ⟨c1, c2, c3, c4, c5, c6⟩ := RangeFrom_trace fn s.styp.fields 0 s m hwf hval
    hflds0
  refine ⟨?_, c2, c3, c4, ?_, c6⟩
  · rw [List.range_eq_range']
    exact c1
  · intro j hj
    rw [Struct.Range] at hj
    exact c5 j (by omega)

/-- Witness for C10: the one-field shape with an immediately-false
callback. -/
theorem gofield_range_visits_in_order_witness :
    (Mem.WF [Cell.cptr none] = true ∧ 0 < (newStruct stG 1).value
      ∧ (∀ k f, (newStruct stG 1).styp.fields.get? k = some f → f.id = (k : Int)
          ∧ ancIdLt f = true
          ∧ ancOK (newStruct stG 1).fieldValues.length f = true
          ∧ f.parent.isSome = true))
    ∧ ((((newStruct stG 1).Range [Cell.cptr none] (fun _ _ => false)).2.map Prod.fst
          = List.range
              ((newStruct stG 1).Range [Cell.cptr none] (fun _ _ => false)).2.length)
      ∧ ((newStruct stG 1).Range [Cell.cptr none] (fun _ _ => false)).2.length
          ≤ (newStruct stG 1).styp.fields.length
      ∧ (∀ k, k + 1
            < ((newStruct stG 1).Range [Cell.cptr none] (fun _ _ => false)).2.length →
          ∃ f p, (newStruct stG 1).styp.fields.get? k = some f
            ∧ ((newStruct stG 1).Range [Cell.cptr none] (fun _ _ => false)).2.get? k
                = some p
            ∧ (fun (_ : FieldType) (_ : Nat) => false) f p.2 = true)
      ∧ (((newStruct stG 1).Range [Cell.cptr none] (fun _ _ => false)).2.length
            < (newStruct stG 1).styp.fields.length →
          ∃ f p, (newStruct stG 1).styp.fields.get?
              (((newStruct stG 1).Range [Cell.cptr none]
                  (fun _ _ => false)).2.length - 1) = some f
            ∧ ((newStruct stG 1).Range [Cell.cptr none] (fun _ _ => false)).2.get?
                (((newStruct stG 1).Range [Cell.cptr none]
                    (fun _ _ => false)).2.length - 1) = some p
            ∧ (fun (_ : FieldType) (_ : Nat) => false) f p.2 = false)
      ∧ (∀ j, ((newStruct stG 1).Range [Cell.cptr none]
            (fun _ _ => false)).2.length ≤ j →
          ((newStruct stG 1).Range [Cell.cptr none]
              (fun _ _ => false)).1.1.fieldValues.getD j 0
            = (newStruct stG 1).fieldValues.getD j 0)
      ∧ (∀ k p, ((newStruct stG 1).Range [Cell.cptr none]
            (fun _ _ => false)).2.get? k = some p →
          0 < p.2
          ∧ ((newStruct stG 1).Range [Cell.cptr none]
              (fun _ _ => false)).1.1.fieldValues.getD p.1 0 = p.2)) :=
  ⟨⟨rfl, by decide, by
      intro k f hk
      cases k with
      | zero =>
        cases hk
        exact ⟨rfl, rfl, rfl, rfl⟩
      | succ k2 => exact absurd hk (by simp [newStruct, stG])⟩,
   gofield_range_visits_in_order (newStruct stG 1) [Cell.cptr none]
     (fun _ _ => false) rfl (by decide) (by
      intro k f hk
      cases k with
      | zero =>
        cases hk
        exact ⟨rfl, rfl, rfl, rfl⟩
      | succ k2 => exact absurd hk (by simp [newStruct, stG]))⟩

/-- C8: only the bind/analyze entry points are fallible — `Analyze`
fails with IllegalType exactly when the argument is not a pointer to a
struct and succeeds otherwise, a pre-resolved shape's `Access` fails
with TypeMismatch exactly when the runtime type ids differ, and an
out-of-range field id makes `FieldValue` return the zero view with the
accessor and memory untouched (no resolution attempt) and `fieldType`
return the nil descriptor, without any error. -/
theorem gofield_error_surface :
    (∀ (a : Accessor) (v : ArgVal), isStructPtr v.typ = false →
        a.Analyze v = .error .illegalType)
    ∧ (∀ (a : Accessor) (v : ArgVal), isStructPtr v.typ = true →
        ∃ r, a.Analyze v = .ok r)
    ∧ (∀ (st : StructType) (v : ArgVal), st.tid ≠ v.tid →
        st.Access v = .error .typeMismatch)
    ∧ (∀ (st : StructType) (v : ArgVal), st.tid = v.tid →
        st.Access v = .ok (newStruct st v.addr))
    ∧ (∀ (s : Struct) (m : Mem) (id : Int), s.styp.checkID id = false →
        s.FieldValue m id = (0, s, m))
    ∧ (∀ (st : StructType) (id : Int), st.checkID id = false →
        st.fieldType id = none) := by
  refine ⟨?_, ?_, ?_, ?_, ?_, ?_⟩
  · intro a v h
    obtain ⟨ty, tid, addr⟩ := v
    cases ty with
    | rint => rfl
    | rstruct ms => rfl
    | rptr t =>
      cases t with
      | rint => rfl
      | rptr t2 => rfl
      | rstruct ms => exact Bool.noConfusion h
  · intro a v h
    obtain ⟨ty, tid, addr⟩ := v
    cases ty with
    | rint => exact Bool.noConfusion h
    | rstruct ms => exact Bool.noConfusion h
    | rptr t =>
      cases t with
      | rint => exact Bool.noConfusion h
      | rptr t2 => exact Bool.noConfusion h
      | rstruct ms =>
        exact ⟨a.analyze tid (stripPtr (RType.rptr (.rstruct ms))).2, rfl⟩
  · intro st v h
    rw [StructType.Access]
    rw [if_pos (show st.tid ≠ (parseStructInfo v).1 from h)]
  · intro st v h
    rw [StructType.Access]
    rw [if_neg (show ¬ st.tid ≠ (parseStructInfo v).1 from by simpa using h)]
    rfl
  · intro s m id h
    rw [Struct.FieldValue, if_neg (by rw [h]; simp)]
  · intro st id h
    rw [StructType.fieldType, if_neg (by rw [h]; simp)]

/-- Witness for C8: a non-pointer argument, a matching and a
mismatching type id, and out-of-range ids 9 and -1. -/
theorem gofield_error_surface_witness :
    (isStructPtr (ArgVal.mk .rint 5 3).typ = false
      ∧ isStructPtr (ArgVal.mk (.rptr (.rstruct [])) 5 3).typ = true
      ∧ stG.tid ≠ (ArgVal.mk (.rptr (.rstruct [])) 5 3).tid
      ∧ stG.tid = (ArgVal.mk (.rptr (.rstruct [])) 7 3).tid
      ∧ (newStruct stG 1).styp.checkID 9 = false
      ∧ stG.checkID (-1) = false)
    ∧ ((Accessor.mk [] 16 none).Analyze (ArgVal.mk .rint 5 3)
          = .error .illegalType
      ∧ (∃ r, (Accessor.mk [] 16 none).Analyze (ArgVal.mk (.rptr (.rstruct [])) 5 3)
          = .ok r)
      ∧ stG.Access (ArgVal.mk (.rptr (.rstruct [])) 5 3) = .error .typeMismatch
      ∧ stG.Access (ArgVal.mk (.rptr (.rstruct [])) 7 3)
          = .ok (newStruct stG (ArgVal.mk (.rptr (.rstruct [])) 7 3).addr)
      ∧ (newStruct stG 1).FieldValue [] 9 = (0, newStruct stG 1, [])
      ∧ stG.fieldType (-1) = none) :=
  ⟨⟨rfl, rfl, by decide, rfl, rfl, rfl⟩,
   gofield_error_surface.1 (Accessor.mk [] 16 none) (ArgVal.mk .rint 5 3) rfl,
   gofield_error_surface.2.1 (Accessor.mk [] 16 none)
     (ArgVal.mk (.rptr (.rstruct [])) 5 3) rfl,
   gofield_error_surface.2.2.1 stG (ArgVal.mk (.rptr (.rstruct [])) 5 3)
     (by decide),
   gofield_error_surface.2.2.2.1 stG (ArgVal.mk (.rptr (.rstruct [])) 7 3) rfl,
   gofield_error_surface.2.2.2.2.1 (newStruct stG 1) [] 9 rfl,
   gofield_error_surface.2.2.2.2.2 stG (-1) rfl⟩

end Gofield
